import Mathlib

/-!
# Physical plan generator

A shallow embedding of `src/execution/physical_plan_generator.cpp`: the pass that lowers a
bound logical operator tree into a physical operator tree.

* The generator object is the record `PhysicalPlanGenerator`; every member function takes the
  record and returns the updated one.
* A C++ exception in flight is the completion `Completion.thrown`, which keeps the generator
  state held at the throw; dereferencing a null `unique_ptr` has no defined behaviour and is
  the result `none`.
* `unique_ptr` arguments that the code dereferences unconditionally (`logical`, `expr.op`)
  are taken by value: null is outside the domain of the function.
* Every `Visit(LogicalX &)` overload starts with the call of the base-class visitor. That
  call is the recursive step of the walk and sits in `Accept`; the definition named after
  the overload is the rest of its body.
* `CreatePlan` and `Visit(SubqueryExpression &)` call back into the walk. Their bodies are
  `CreatePlanWith` and `VisitSubqueryExpressionWith`, which take that call as an argument;
  `CreatePlan` and `VisitSubqueryExpression` are the bodies with the call filled in.
-/

namespace duckdb

/-! ## Data model -/

/-- Lookup of `key` in an associative container, `none` when the key is absent. -/
def find {β : Type} (key : String) : List (String × β) → Option β
  | [] => none
  | (k, v) :: rest => if k = key then some v else find key rest

/-- Modelled from the spec: the bind context, whose class is declared outside
`physical_plan_generator.cpp`: per table alias, the ordered list of the column names that
the query references. -/
structure BindContext where
  bound_columns : List (String × List String)

/-- Modelled from the spec: the value read by `bound_columns[alias]`, for `bound_columns`
a standard associative container (its declaration is outside
`physical_plan_generator.cpp`): the columns recorded for the alias, the empty list (the
default the container inserts) when the alias has no entry. -/
def BindContext.columns (context : BindContext) (alias_ : String) : List String :=
  (find alias_ context.bound_columns).getD []

/-- Modelled from the spec: the container after `bound_columns[alias]`, as above: indexing
an absent key inserts it with an empty column list, indexing a present key changes
nothing. -/
def BindContext.touch (context : BindContext) (alias_ : String) : BindContext :=
  match find alias_ context.bound_columns with
  | some _ => context
  | none => ⟨context.bound_columns ++ [(alias_, [])]⟩

/-- Modelled from the spec: the catalog entry of a table, whose class is declared outside
`physical_plan_generator.cpp`: the map from column name to column id and the handle of the
storage. The entry belongs to the catalog; the generator reads it through a pointer. -/
structure TableCatalogEntry where
  name_map : List (String × Nat)
  storage : Nat

/-- Modelled from the spec: the value read by `name_map[column]`, for `name_map` a standard
associative container (its declaration is outside `physical_plan_generator.cpp`): the id
recorded for the name, `0` (the default the container inserts) when the name is absent.
The insertion itself happens inside the catalog entry and changes no value read later, so
it is not tracked. -/
def TableCatalogEntry.column_id (table : TableCatalogEntry) (column : String) : Nat :=
  (find column table.name_map).getD 0

/-- Modelled from the spec: the sort description of an Order node, declared outside
`physical_plan_generator.cpp`: one (ascending, sort key) pair per key. The generator moves
it from the logical node into the physical node and does not look inside. -/
structure OrderByDescription where
  orders : List (Bool × String)

mutual
/-- Modelled from the spec: an expression as the binder hands it over (the expression
classes are declared outside `physical_plan_generator.cpp`). A subquery expression owns a
logical tree `op` and the bind context of that tree; every other expression is a tagged
node over child expressions. -/
inductive Expression where
  | other (tag : String) (children : List Expression)
  | SubqueryExpression (op : LogicalOperator) (context : BindContext)
/-- Modelled from the spec: the logical operator tree (the operator classes are declared
outside `physical_plan_generator.cpp`), one constructor per class, with the list of
children and the members that the generator reads. -/
inductive LogicalOperator where
  | LogicalAggregate (children : List LogicalOperator) (select_list groups : List Expression)
  | LogicalDistinct (children : List LogicalOperator)
  | LogicalFilter (children : List LogicalOperator) (expressions : List Expression)
  | LogicalGet (children : List LogicalOperator) (table : Option TableCatalogEntry)
      (alias_ : String)
  | LogicalLimit (children : List LogicalOperator) (limit offset : Nat)
  | LogicalOrder (children : List LogicalOperator) (description : OrderByDescription)
  | LogicalProjection (children : List LogicalOperator) (select_list : List Expression)
  | LogicalInsert (children : List LogicalOperator) (table : Option TableCatalogEntry)
      (value_list : List Expression)
  | LogicalCopy (children : List LogicalOperator) (table : Option TableCatalogEntry)
      (file_path : String) (is_from : Bool) (delimiter quote escape : Char)
end

mutual
/-- Modelled from the spec: an expression after the generator walked it. In a subquery
expression `op` and `context` have been moved out and the `plan` slot holds what the nested
generation left; every other expression keeps its tag over the walked children. -/
inductive PlannedExpression where
  | other (tag : String) (children : List PlannedExpression)
  | SubqueryExpression (plan : Option PhysicalOperator)
/-- Modelled from the spec: the physical operator tree (the operator classes are declared
outside `physical_plan_generator.cpp`), one constructor per class, with the list of
children and the arguments of the constructor call in the generator. A hash aggregate built
from a select list alone has no grouping expressions. -/
inductive PhysicalOperator where
  | PhysicalTableScan (children : List PhysicalOperator) (storage : Nat)
      (column_ids : List Nat)
  | PhysicalFilter (children : List PhysicalOperator) (expressions : List PlannedExpression)
  | PhysicalHashAggregate (children : List PhysicalOperator)
      (select_list groups : List PlannedExpression)
  | PhysicalOrder (children : List PhysicalOperator) (description : OrderByDescription)
  | PhysicalLimit (children : List PhysicalOperator) (limit offset : Nat)
  | PhysicalProjection (children : List PhysicalOperator)
      (select_list : List PlannedExpression)
  | PhysicalInsert (children : List PhysicalOperator) (table : Option TableCatalogEntry)
      (value_list : List PlannedExpression)
  | PhysicalCopy (children : List PhysicalOperator) (table : Option TableCatalogEntry)
      (file_path : String) (is_from : Bool) (delimiter quote escape : Char)
end

/-- The children list of a physical operator. -/
def PhysicalOperator.children : PhysicalOperator → List PhysicalOperator
  | .PhysicalTableScan c _ _ => c
  | .PhysicalFilter c _ => c
  | .PhysicalHashAggregate c _ _ => c
  | .PhysicalOrder c _ => c
  | .PhysicalLimit c _ _ => c
  | .PhysicalProjection c _ => c
  | .PhysicalInsert c _ _ => c
  | .PhysicalCopy c _ _ _ _ _ _ => c

/-- Modelled from the spec: an exception object (the exception classes are declared outside
`physical_plan_generator.cpp`): `Exception(message)` is `Exception.of message`, the subclass
for unimplemented features is `NotImplementedException`. -/
inductive Exception where
  | of (message : String)
  | NotImplementedException (what : String)

/-- Modelled from the spec: `Exception::GetMessage` (the exception classes are declared
outside `physical_plan_generator.cpp`). A structural failure carries its message through
verbatim; the text of a not-implemented failure is the rendering `fmt` of its argument,
left as a parameter. -/
def Exception.GetMessage (fmt : String → String) : Exception → String
  | .of message => message
  | .NotImplementedException what => fmt what

/-- What a `throw` raises: an `Exception` (or subclass) object, or anything else. -/
inductive Thrown where
  | duckdb (ex : Exception)
  | foreign

/-- The generator object, with the members that `physical_plan_generator.cpp` uses: the
current-plan slot `plan`, the bind context, the success flag and the message. The two
`unique_ptr` members are options, `none` for null. -/
structure PhysicalPlanGenerator where
  plan : Option PhysicalOperator
  context : Option BindContext
  success : Bool
  message : String

/-- A generator on which nothing has run yet: both pointers null, no message. -/
def PhysicalPlanGenerator.fresh : PhysicalPlanGenerator :=
  ⟨none, none, false, ""⟩

/-- How a call on the generator ends: it returns, or an exception leaves it. -/
inductive Completion where
  | returned (g : PhysicalPlanGenerator)
  | thrown (ex : Thrown) (g : PhysicalPlanGenerator)

/-! ## The generator -/

/-- The body of `PhysicalPlanGenerator::CreatePlan` (lines 31-47); `accept` is the dispatch
`logical->Accept(this)`. The result is the returned flag and the generator left behind. -/
def CreatePlanWith (fmt : String → String)
    (accept : PhysicalPlanGenerator → Option Completion) (g : PhysicalPlanGenerator)
    (context : BindContext) : Option (Bool × PhysicalPlanGenerator) :=
  let g := { g with context := some context }
  let g := { g with success := false }
  match accept g with
  | none => none
  | some (.returned g) =>
    match g.plan with
    | none =>
      -- throw Exception("Unknown error in physical plan generation"), caught right below
      let ex := Exception.of "Unknown error in physical plan generation"
      let g := { g with message := ex.GetMessage fmt }
      some (g.success, g)
    | some _ =>
      let g := { g with success := true }
      some (g.success, g)
  | some (.thrown (.duckdb ex) g) =>
    let g := { g with message := ex.GetMessage fmt }
    some (g.success, g)
  | some (.thrown .foreign g) =>
    let g := { g with message := "UNHANDLED EXCEPTION TYPE THROWN IN PLANNER!" }
    some (g.success, g)

/-- The body of `PhysicalPlanGenerator::Visit(SubqueryExpression &)` (lines 162-169);
`createPlan` is the call `CreatePlan(move(expr.op), move(expr.context))` on this generator.
The second component of the result is `expr` afterwards. -/
def VisitSubqueryExpressionWith
    (createPlan : PhysicalPlanGenerator → Option (Bool × PhysicalPlanGenerator))
    (g : PhysicalPlanGenerator) : Option (PhysicalPlanGenerator × PlannedExpression) :=
  let old_plan := g.plan
  let g := { g with plan := none }
  let old_context := g.context
  let g := { g with context := none }
  match createPlan g with
  | none => none
  | some (_, g) =>
    let expr := PlannedExpression.SubqueryExpression g.plan
    let g := { g with plan := none }
    let g := { g with plan := old_plan }
    let g := { g with context := old_context }
    some (g, expr)

/-- The overload `PhysicalPlanGenerator::Visit(LogicalAggregate &)` (lines 49-78) after the
base-class call; `select_list` and `groups` are the members of `op` as that call left them. -/
def VisitLogicalAggregate (select_list groups : List PlannedExpression)
    (g : PhysicalPlanGenerator) : Completion :=
  if groups.length = 0 then
    match g.plan with
    | none =>
      let groupby := PhysicalOperator.PhysicalHashAggregate [] select_list []
      .returned { g with plan := some groupby }
    | some plan =>
      let groupby := PhysicalOperator.PhysicalHashAggregate [plan] select_list []
      .returned { g with plan := some groupby }
  else
    match g.plan with
    | none => .thrown (.duckdb (.of "Cannot have GROUP BY without FROM clause!")) g
    | some plan =>
      let groupby := PhysicalOperator.PhysicalHashAggregate [plan] select_list groups
      .returned { g with plan := some groupby }

/-- The overload `PhysicalPlanGenerator::Visit(LogicalDistinct &)` (lines 80-84) after the
base-class call. -/
def VisitLogicalDistinct (g : PhysicalPlanGenerator) : Completion :=
  .thrown (.duckdb (.NotImplementedException "distinct clause")) g

/-- The overload `PhysicalPlanGenerator::Visit(LogicalFilter &)` (lines 86-96) after the base-class
call; `expressions` is `op.expressions` as that call left it. -/
def VisitLogicalFilter (expressions : List PlannedExpression) (g : PhysicalPlanGenerator) :
    Completion :=
  match g.plan with
  | none => .thrown (.duckdb (.of "Filter cannot be the first node of a plan!")) g
  | some plan =>
    let filter := PhysicalOperator.PhysicalFilter [plan] expressions
    .returned { g with plan := some filter }

/-- The overload `PhysicalPlanGenerator::Visit(LogicalGet &)` (lines 98-117) after the
base-class call.
Reading `context->bound_columns` through a null `context` is the result `none`. -/
def VisitLogicalGet (table : Option TableCatalogEntry) (alias_ : String)
    (g : PhysicalPlanGenerator) : Option Completion :=
  match table with
  | none =>
    -- dummy GET operation, ignore it
    some (.returned g)
  | some table =>
    match g.context with
    | none => none
    | some context =>
      let column_ids := (context.columns alias_).map table.column_id
      let g := { g with context := some (context.touch alias_) }
      let scan := PhysicalOperator.PhysicalTableScan [] table.storage column_ids
      match g.plan with
      | some _ => some (.thrown (.duckdb (.of "Scan has to be the first node of a plan!")) g)
      | none => some (.returned { g with plan := some scan })

/-- The overload `PhysicalPlanGenerator::Visit(LogicalLimit &)` (lines 119-128) after the base-class
call. -/
def VisitLogicalLimit (limit offset : Nat) (g : PhysicalPlanGenerator) : Completion :=
  match g.plan with
  | none => .thrown (.duckdb (.of "Limit cannot be the first node of a plan!")) g
  | some plan =>
    let limit := PhysicalOperator.PhysicalLimit [plan] limit offset
    .returned { g with plan := some limit }

/-- The overload `PhysicalPlanGenerator::Visit(LogicalOrder &)` (lines 130-140) after the base-class
call. -/
def VisitLogicalOrder (description : OrderByDescription) (g : PhysicalPlanGenerator) :
    Completion :=
  match g.plan with
  | none => .thrown (.duckdb (.of "Order cannot be the first node of a plan!")) g
  | some plan =>
    let order := PhysicalOperator.PhysicalOrder [plan] description
    .returned { g with plan := some order }

/-- The overload `PhysicalPlanGenerator::Visit(LogicalProjection &)` (lines 142-150) after the
base-class call; `select_list` is `op.select_list` as that call left it. -/
def VisitLogicalProjection (select_list : List PlannedExpression)
    (g : PhysicalPlanGenerator) : Completion :=
  match g.plan with
  | some plan =>
    let projection := PhysicalOperator.PhysicalProjection [plan] select_list
    .returned { g with plan := some projection }
  | none =>
    let projection := PhysicalOperator.PhysicalProjection [] select_list
    .returned { g with plan := some projection }

/-- The overload `PhysicalPlanGenerator::Visit(LogicalInsert &)` (lines 152-160) after the
base-class call; `value_list` is `op.value_list` as that call left it. -/
def VisitLogicalInsert (table : Option TableCatalogEntry)
    (value_list : List PlannedExpression) (g : PhysicalPlanGenerator) : Completion :=
  let insertion := PhysicalOperator.PhysicalInsert [] table value_list
  match g.plan with
  | some _ => .thrown (.duckdb (.of "Insert should be root node")) g
  | none => .returned { g with plan := some insertion }

/-- The overload `PhysicalPlanGenerator::Visit(LogicalCopy &)` (lines 171-179) after the base-class
call. -/
def VisitLogicalCopy (table : Option TableCatalogEntry) (file_path : String)
    (is_from : Bool) (delimiter quote escape : Char) (g : PhysicalPlanGenerator) :
    Completion :=
  let copy := PhysicalOperator.PhysicalCopy [] table file_path is_from delimiter quote escape
  match g.plan with
  | some _ => .thrown (.duckdb (.of "Copy should be root node")) g
  | none => .returned { g with plan := some copy }

mutual
/-- Modelled from the spec: the dispatch `logical->Accept(this)` and the base-class visitor
`LogicalOperatorVisitor::Visit(op)`, both defined outside `physical_plan_generator.cpp`.
`Accept` is the double dispatch to the `Visit` overload of the class of the node. Each
overload starts with the base-class visitor, which dispatches the children in list order
and then visits the expression lists of the node; an exception raised below leaves the
overload at once. What follows the base-class call is the definition named after the
overload. -/
def Accept (fmt : String → String) (logical : LogicalOperator) (g : PhysicalPlanGenerator) :
    Option Completion :=
  match logical with
  | .LogicalAggregate children select_list groups =>
    match AcceptChildren fmt children g with
    | none => none
    | some (.thrown ex g) => some (.thrown ex g)
    | some (.returned g) =>
      match VisitExpressions fmt select_list g with
      | none => none
      | some (g, select_list) =>
        match VisitExpressions fmt groups g with
        | none => none
        | some (g, groups) => some (VisitLogicalAggregate select_list groups g)
  | .LogicalDistinct children =>
    match AcceptChildren fmt children g with
    | none => none
    | some (.thrown ex g) => some (.thrown ex g)
    | some (.returned g) => some (VisitLogicalDistinct g)
  | .LogicalFilter children expressions =>
    match AcceptChildren fmt children g with
    | none => none
    | some (.thrown ex g) => some (.thrown ex g)
    | some (.returned g) =>
      match VisitExpressions fmt expressions g with
      | none => none
      | some (g, expressions) => some (VisitLogicalFilter expressions g)
  | .LogicalGet children table alias_ =>
    match AcceptChildren fmt children g with
    | none => none
    | some (.thrown ex g) => some (.thrown ex g)
    | some (.returned g) => VisitLogicalGet table alias_ g
  | .LogicalLimit children limit offset =>
    match AcceptChildren fmt children g with
    | none => none
    | some (.thrown ex g) => some (.thrown ex g)
    | some (.returned g) => some (VisitLogicalLimit limit offset g)
  | .LogicalOrder children description =>
    match AcceptChildren fmt children g with
    | none => none
    | some (.thrown ex g) => some (.thrown ex g)
    | some (.returned g) => some (VisitLogicalOrder description g)
  | .LogicalProjection children select_list =>
    match AcceptChildren fmt children g with
    | none => none
    | some (.thrown ex g) => some (.thrown ex g)
    | some (.returned g) =>
      match VisitExpressions fmt select_list g with
      | none => none
      | some (g, select_list) => some (VisitLogicalProjection select_list g)
  | .LogicalInsert children table value_list =>
    match AcceptChildren fmt children g with
    | none => none
    | some (.thrown ex g) => some (.thrown ex g)
    | some (.returned g) =>
      match VisitExpressions fmt value_list g with
      | none => none
      | some (g, value_list) => some (VisitLogicalInsert table value_list g)
  | .LogicalCopy children table file_path is_from delimiter quote escape =>
    match AcceptChildren fmt children g with
    | none => none
    | some (.thrown ex g) => some (.thrown ex g)
    | some (.returned g) =>
      some (VisitLogicalCopy table file_path is_from delimiter quote escape g)
termination_by structural logical

/-- Modelled from the spec: `LogicalOperator::AcceptChildren` (defined outside
`physical_plan_generator.cpp`): the children are dispatched in list order; an exception
raised by one of them ends the loop. -/
def AcceptChildren (fmt : String → String) (children : List LogicalOperator)
    (g : PhysicalPlanGenerator) : Option Completion :=
  match children with
  | [] => some (.returned g)
  | child :: rest =>
    match Accept fmt child g with
    | none => none
    | some (.thrown ex g) => some (.thrown ex g)
    | some (.returned g) => AcceptChildren fmt rest g
termination_by structural children

/-- Modelled from the spec: the visit of one expression list of a node (defined outside
`physical_plan_generator.cpp`): the expressions are visited in order. No expression visit
raises, so the result is the generator together with the list as the visit left it. -/
def VisitExpressions (fmt : String → String) (expressions : List Expression)
    (g : PhysicalPlanGenerator) : Option (PhysicalPlanGenerator × List PlannedExpression) :=
  match expressions with
  | [] => some (g, [])
  | expr :: rest =>
    match VisitExpression fmt expr g with
    | none => none
    | some (g, expr) =>
      match VisitExpressions fmt rest g with
      | none => none
      | some (g, rest) => some (g, expr :: rest)
termination_by structural expressions

/-- Modelled from the spec: `expr->Accept(this)` (defined outside
`physical_plan_generator.cpp`): a
subquery expression goes to `Visit(SubqueryExpression &)`, whose nested `CreatePlan`
dispatches `expr.op`; any other expression has its children visited. -/
def VisitExpression (fmt : String → String) (expr : Expression) (g : PhysicalPlanGenerator) :
    Option (PhysicalPlanGenerator × PlannedExpression) :=
  match expr with
  | .SubqueryExpression op context =>
    VisitSubqueryExpressionWith
      (fun g => CreatePlanWith fmt (fun g => Accept fmt op g) g context) g
  | .other tag children =>
    match VisitExpressions fmt children g with
    | none => none
    | some (g, children) => some (g, .other tag children)
termination_by structural expr
end

/-- The member `PhysicalPlanGenerator::CreatePlan(logical, context)` (lines 31-47) on the
generator `g`: the returned flag and the generator left behind. -/
def CreatePlan (fmt : String → String) (g : PhysicalPlanGenerator) (logical : LogicalOperator)
    (context : BindContext) : Option (Bool × PhysicalPlanGenerator) :=
  CreatePlanWith fmt (fun g => Accept fmt logical g) g context

/-- The overload `PhysicalPlanGenerator::Visit(SubqueryExpression &)` (lines 162-169) on the
generator `g`; `op` and `context` are the members of `expr` before the call, the second
component of the result is `expr` after it. -/
def VisitSubqueryExpression (fmt : String → String) (op : LogicalOperator)
    (context : BindContext) (g : PhysicalPlanGenerator) :
    Option (PhysicalPlanGenerator × PlannedExpression) :=
  VisitSubqueryExpressionWith (fun g => CreatePlan fmt g op context) g

/-- The generator state a completion carries. -/
def Completion.state : Completion → PhysicalPlanGenerator
  | .returned g => g
  | .thrown _ g => g

/-- Two generator states that agree on everything but the message. -/
def Sim (g1 g2 : PhysicalPlanGenerator) : Prop :=
  g1.plan = g2.plan ∧ g1.context = g2.context ∧ g1.success = g2.success

/-- Two completions of the same kind whose states agree on everything but the message. -/
def SimC : Completion → Completion → Prop
  | .returned a, .returned b => Sim a b
  | .thrown e a, .thrown f b => e = f ∧ Sim a b
  | _, _ => False

/-! ## The shape of physical and logical trees -/

/-- The classes of physical operator that the generator builds. -/
inductive PhysicalKind where
  | scan
  | filter
  | hashAggregate
  | order
  | limit
  | projection
  | insert
  | copy
  deriving DecidableEq

/-- What the claims about shape look at in one node of a physical tree: its class, the
number of its children, and whether it carries grouping expressions. -/
structure PhysicalNode where
  kind : PhysicalKind
  arity : Nat
  grouped : Bool
  deriving DecidableEq

mutual
/-- The nodes of a physical tree in post-order (children in list order, then the node). For
a chain this is the sequence of the nodes from the deepest one up to the root. Plans held
by expressions are not part of the tree. -/
def PhysicalOperator.nodes : PhysicalOperator → List PhysicalNode
  | .PhysicalTableScan c _ _ => nodesOfChildren c ++ [⟨.scan, c.length, false⟩]
  | .PhysicalFilter c _ => nodesOfChildren c ++ [⟨.filter, c.length, false⟩]
  | .PhysicalHashAggregate c _ groups =>
    nodesOfChildren c ++ [⟨.hashAggregate, c.length, decide (groups.length ≠ 0)⟩]
  | .PhysicalOrder c _ => nodesOfChildren c ++ [⟨.order, c.length, false⟩]
  | .PhysicalLimit c _ _ => nodesOfChildren c ++ [⟨.limit, c.length, false⟩]
  | .PhysicalProjection c _ => nodesOfChildren c ++ [⟨.projection, c.length, false⟩]
  | .PhysicalInsert c _ _ => nodesOfChildren c ++ [⟨.insert, c.length, false⟩]
  | .PhysicalCopy c _ _ _ _ _ _ => nodesOfChildren c ++ [⟨.copy, c.length, false⟩]
/-- The nodes of a list of physical trees, tree after tree. -/
def nodesOfChildren : List PhysicalOperator → List PhysicalNode
  | [] => []
  | p :: rest => p.nodes ++ nodesOfChildren rest
end

/-- The nodes of what the plan slot holds: none for an empty slot. -/
def planNodes : Option PhysicalOperator → List PhysicalNode
  | none => []
  | some p => p.nodes

/-- The classes of the nodes of what the plan slot holds, deepest node first for a chain. -/
def planKinds (plan : Option PhysicalOperator) : List (Option PhysicalKind) :=
  (planNodes plan).map (fun n => some n.kind)

/-- The arity rule: a table scan has no children; a filter, an order and a limit have
exactly one; a hash aggregate with grouping expressions has exactly one; a projection and a
hash aggregate without grouping expressions have none or one. Insert and copy nodes are not
constrained by this rule. -/
def PhysicalNode.arityOk (n : PhysicalNode) : Bool :=
  match n.kind with
  | .scan => n.arity == 0
  | .filter => n.arity == 1
  | .order => n.arity == 1
  | .limit => n.arity == 1
  | .hashAggregate => if n.grouped then n.arity == 1 else decide (n.arity ≤ 1)
  | .projection => decide (n.arity ≤ 1)
  | .insert => true
  | .copy => true

/-- An insert or copy node has no children; other nodes are not constrained. -/
def PhysicalNode.leafIfInsertOrCopy (n : PhysicalNode) : Bool :=
  match n.kind with
  | .insert => n.arity == 0
  | .copy => n.arity == 0
  | _ => true

/-- The plans the handlers can put into the plan slot: a leaf (scan, insert, copy, a
projection or a hash aggregate over nothing), or one node over a plan built before. -/
inductive Built : PhysicalOperator → Prop where
  | scan (storage : Nat) (column_ids : List Nat) :
    Built (.PhysicalTableScan [] storage column_ids)
  | filter (p : PhysicalOperator) (expressions : List PlannedExpression) :
    Built p → Built (.PhysicalFilter [p] expressions)
  | aggregate_leaf (select_list : List PlannedExpression) :
    Built (.PhysicalHashAggregate [] select_list [])
  | aggregate (p : PhysicalOperator) (select_list groups : List PlannedExpression) :
    Built p → Built (.PhysicalHashAggregate [p] select_list groups)
  | order (p : PhysicalOperator) (description : OrderByDescription) :
    Built p → Built (.PhysicalOrder [p] description)
  | limit (p : PhysicalOperator) (limit offset : Nat) :
    Built p → Built (.PhysicalLimit [p] limit offset)
  | projection_leaf (select_list : List PlannedExpression) :
    Built (.PhysicalProjection [] select_list)
  | projection (p : PhysicalOperator) (select_list : List PlannedExpression) :
    Built p → Built (.PhysicalProjection [p] select_list)
  | insert (table : Option TableCatalogEntry) (value_list : List PlannedExpression) :
    Built (.PhysicalInsert [] table value_list)
  | copy (table : Option TableCatalogEntry) (file_path : String) (is_from : Bool)
      (delimiter quote escape : Char) :
    Built (.PhysicalCopy [] table file_path is_from delimiter quote escape)

/-- The plan slot is empty or holds a plan the handlers can build. -/
def BuiltSlot : Option PhysicalOperator → Prop
  | none => True
  | some p => Built p

mutual
/-- The spec's linearisation of a logical tree: its nodes in post-order (children in list
order, then the node), dummy Gets removed, each node mapped to its physical counterpart:
Get to scan, Filter to filter, Projection to projection, Aggregate to hash aggregate, Order
to order, Limit to limit, Insert to insert, Copy to copy. A Distinct has no counterpart and
is listed as `none`. -/
def LogicalOperator.counterparts : LogicalOperator → List (Option PhysicalKind)
  | .LogicalAggregate c _ _ => counterpartsOfChildren c ++ [some .hashAggregate]
  | .LogicalDistinct c => counterpartsOfChildren c ++ [none]
  | .LogicalFilter c _ => counterpartsOfChildren c ++ [some .filter]
  | .LogicalGet c none _ => counterpartsOfChildren c
  | .LogicalGet c (some _) _ => counterpartsOfChildren c ++ [some .scan]
  | .LogicalLimit c _ _ => counterpartsOfChildren c ++ [some .limit]
  | .LogicalOrder c _ => counterpartsOfChildren c ++ [some .order]
  | .LogicalProjection c _ => counterpartsOfChildren c ++ [some .projection]
  | .LogicalInsert c _ _ => counterpartsOfChildren c ++ [some .insert]
  | .LogicalCopy c _ _ _ _ _ _ => counterpartsOfChildren c ++ [some .copy]
/-- The linearisation of a list of logical trees, tree after tree. -/
def counterpartsOfChildren : List LogicalOperator → List (Option PhysicalKind)
  | [] => []
  | l :: rest => l.counterparts ++ counterpartsOfChildren rest
end


/-! ## The walk always completes -/

theorem VisitLogicalAggregate_context (select_list groups : List PlannedExpression)
    (g : PhysicalPlanGenerator) :
    (VisitLogicalAggregate select_list groups g).state.context = g.context := by
  unfold VisitLogicalAggregate
  split <;> split <;> rfl

theorem VisitLogicalFilter_context (expressions : List PlannedExpression)
    (g : PhysicalPlanGenerator) :
    (VisitLogicalFilter expressions g).state.context = g.context := by
  unfold VisitLogicalFilter
  split <;> rfl

theorem VisitLogicalGet_completes (table : Option TableCatalogEntry) (alias_ : String)
    (g : PhysicalPlanGenerator) (h : g.context.isSome = true) :
    ∃ c, VisitLogicalGet table alias_ g = some c ∧ c.state.context.isSome = true := by
  unfold VisitLogicalGet
  match table with
  | none => exact ⟨_, rfl, h⟩
  | some table =>
    obtain ⟨context, hcx⟩ := Option.isSome_iff_exists.mp h
    simp only [hcx]
    split <;> exact ⟨_, rfl, rfl⟩

theorem VisitLogicalLimit_context (limit offset : Nat) (g : PhysicalPlanGenerator) :
    (VisitLogicalLimit limit offset g).state.context = g.context := by
  unfold VisitLogicalLimit
  split <;> rfl

theorem VisitLogicalOrder_context (description : OrderByDescription)
    (g : PhysicalPlanGenerator) :
    (VisitLogicalOrder description g).state.context = g.context := by
  unfold VisitLogicalOrder
  split <;> rfl

theorem VisitLogicalProjection_context (select_list : List PlannedExpression)
    (g : PhysicalPlanGenerator) :
    (VisitLogicalProjection select_list g).state.context = g.context := by
  unfold VisitLogicalProjection
  split <;> rfl

theorem VisitLogicalInsert_context (table : Option TableCatalogEntry)
    (value_list : List PlannedExpression) (g : PhysicalPlanGenerator) :
    (VisitLogicalInsert table value_list g).state.context = g.context := by
  unfold VisitLogicalInsert
  split <;> rfl

theorem VisitLogicalCopy_context (table : Option TableCatalogEntry) (file_path : String)
    (is_from : Bool) (delimiter quote escape : Char) (g : PhysicalPlanGenerator) :
    (VisitLogicalCopy table file_path is_from delimiter quote escape g).state.context =
      g.context := by
  unfold VisitLogicalCopy
  split <;> rfl

/-- The body of `CreatePlan` returns its success flag whenever the dispatch of the root
completes. -/
theorem CreatePlanWith_returns (fmt : String → String)
    (accept : PhysicalPlanGenerator → Option Completion) (g : PhysicalPlanGenerator)
    (context : BindContext)
    (h : ∀ g0 : PhysicalPlanGenerator, g0.context.isSome = true →
      ∃ c, accept g0 = some c ∧ c.state.context.isSome = true) :
    ∃ b g1, CreatePlanWith fmt accept g context = some (b, g1) ∧ b = g1.success ∧
      g1.context.isSome = true := by
  unfold CreatePlanWith
  obtain ⟨c, hc, hctx⟩ := h
    { plan := g.plan, context := some context, success := false, message := g.message } rfl
  match c, hc, hctx with
  | .thrown (.duckdb ex) g1, hc, hctx => simp only [hc]; exact ⟨_, _, rfl, rfl, hctx⟩
  | .thrown .foreign g1, hc, hctx => simp only [hc]; exact ⟨_, _, rfl, rfl, hctx⟩
  | .returned g1, hc, hctx =>
    simp only [hc]
    split
    · exact ⟨_, _, rfl, rfl, hctx⟩
    · exact ⟨_, _, rfl, rfl, hctx⟩

/-- The body of `Visit(SubqueryExpression &)` returns with the plan slot and the bind
context it found,
whenever the nested `CreatePlan` returns. -/
theorem VisitSubqueryExpressionWith_returns
    (createPlan : PhysicalPlanGenerator → Option (Bool × PhysicalPlanGenerator))
    (g : PhysicalPlanGenerator)
    (h : ∀ g0 : PhysicalPlanGenerator, ∃ b g1, createPlan g0 = some (b, g1)) :
    ∃ g1 planned, VisitSubqueryExpressionWith createPlan g = some (g1, planned) ∧
      g1.plan = g.plan ∧ g1.context = g.context := by
  unfold VisitSubqueryExpressionWith
  obtain ⟨b, g1, h1⟩ := h
    { plan := none, context := none, success := g.success, message := g.message }
  simp only [h1]
  exact ⟨_, _, rfl, rfl, rfl⟩

mutual
theorem Accept_completes (fmt : String → String) (logical : LogicalOperator)
    (g : PhysicalPlanGenerator) (h : g.context.isSome = true) :
    ∃ c, Accept fmt logical g = some c ∧ c.state.context.isSome = true := by
  match logical with
  | .LogicalAggregate children select_list groups =>
    rw [Accept]
    obtain ⟨c, hc, hctx⟩ := AcceptChildren_completes fmt children g h
    match c, hc, hctx with
    | .thrown ex g1, hc, hctx => simp only [hc]; exact ⟨_, rfl, hctx⟩
    | .returned g1, hc, hctx =>
      obtain ⟨g2, sl, hs, -, hx⟩ := VisitExpressions_returns fmt select_list g1
      obtain ⟨g3, gr, hg, -, hy⟩ := VisitExpressions_returns fmt groups g2
      simp only [hc, hs, hg]
      refine ⟨_, rfl, ?_⟩
      rw [VisitLogicalAggregate_context, hy, hx]; exact hctx
  | .LogicalDistinct children =>
    rw [Accept]
    obtain ⟨c, hc, hctx⟩ := AcceptChildren_completes fmt children g h
    match c, hc, hctx with
    | .thrown ex g1, hc, hctx => simp only [hc]; exact ⟨_, rfl, hctx⟩
    | .returned g1, hc, hctx => simp only [hc]; exact ⟨_, rfl, hctx⟩
  | .LogicalFilter children expressions =>
    rw [Accept]
    obtain ⟨c, hc, hctx⟩ := AcceptChildren_completes fmt children g h
    match c, hc, hctx with
    | .thrown ex g1, hc, hctx => simp only [hc]; exact ⟨_, rfl, hctx⟩
    | .returned g1, hc, hctx =>
      obtain ⟨g2, es, hs, -, hx⟩ := VisitExpressions_returns fmt expressions g1
      simp only [hc, hs]
      refine ⟨_, rfl, ?_⟩
      rw [VisitLogicalFilter_context, hx]; exact hctx
  | .LogicalGet children table alias_ =>
    rw [Accept]
    obtain ⟨c, hc, hctx⟩ := AcceptChildren_completes fmt children g h
    match c, hc, hctx with
    | .thrown ex g1, hc, hctx => simp only [hc]; exact ⟨_, rfl, hctx⟩
    | .returned g1, hc, hctx =>
      simp only [hc]
      exact VisitLogicalGet_completes table alias_ g1 hctx
  | .LogicalLimit children limit offset =>
    rw [Accept]
    obtain ⟨c, hc, hctx⟩ := AcceptChildren_completes fmt children g h
    match c, hc, hctx with
    | .thrown ex g1, hc, hctx => simp only [hc]; exact ⟨_, rfl, hctx⟩
    | .returned g1, hc, hctx =>
      simp only [hc]
      refine ⟨_, rfl, ?_⟩
      rw [VisitLogicalLimit_context]; exact hctx
  | .LogicalOrder children description =>
    rw [Accept]
    obtain ⟨c, hc, hctx⟩ := AcceptChildren_completes fmt children g h
    match c, hc, hctx with
    | .thrown ex g1, hc, hctx => simp only [hc]; exact ⟨_, rfl, hctx⟩
    | .returned g1, hc, hctx =>
      simp only [hc]
      refine ⟨_, rfl, ?_⟩
      rw [VisitLogicalOrder_context]; exact hctx
  | .LogicalProjection children select_list =>
    rw [Accept]
    obtain ⟨c, hc, hctx⟩ := AcceptChildren_completes fmt children g h
    match c, hc, hctx with
    | .thrown ex g1, hc, hctx => simp only [hc]; exact ⟨_, rfl, hctx⟩
    | .returned g1, hc, hctx =>
      obtain ⟨g2, es, hs, -, hx⟩ := VisitExpressions_returns fmt select_list g1
      simp only [hc, hs]
      refine ⟨_, rfl, ?_⟩
      rw [VisitLogicalProjection_context, hx]; exact hctx
  | .LogicalInsert children table value_list =>
    rw [Accept]
    obtain ⟨c, hc, hctx⟩ := AcceptChildren_completes fmt children g h
    match c, hc, hctx with
    | .thrown ex g1, hc, hctx => simp only [hc]; exact ⟨_, rfl, hctx⟩
    | .returned g1, hc, hctx =>
      obtain ⟨g2, es, hs, -, hx⟩ := VisitExpressions_returns fmt value_list g1
      simp only [hc, hs]
      refine ⟨_, rfl, ?_⟩
      rw [VisitLogicalInsert_context, hx]; exact hctx
  | .LogicalCopy children table file_path is_from delimiter quote escape =>
    rw [Accept]
    obtain ⟨c, hc, hctx⟩ := AcceptChildren_completes fmt children g h
    match c, hc, hctx with
    | .thrown ex g1, hc, hctx => simp only [hc]; exact ⟨_, rfl, hctx⟩
    | .returned g1, hc, hctx =>
      simp only [hc]
      refine ⟨_, rfl, ?_⟩
      rw [VisitLogicalCopy_context]; exact hctx

theorem AcceptChildren_completes (fmt : String → String) (children : List LogicalOperator)
    (g : PhysicalPlanGenerator) (h : g.context.isSome = true) :
    ∃ c, AcceptChildren fmt children g = some c ∧ c.state.context.isSome = true := by
  match children with
  | [] => rw [AcceptChildren]; exact ⟨_, rfl, h⟩
  | child :: rest =>
    rw [AcceptChildren]
    obtain ⟨c, hc, hctx⟩ := Accept_completes fmt child g h
    match c, hc, hctx with
    | .thrown ex g1, hc, hctx => simp only [hc]; exact ⟨_, rfl, hctx⟩
    | .returned g1, hc, hctx =>
      simp only [hc]
      exact AcceptChildren_completes fmt rest g1 hctx

theorem VisitExpressions_returns (fmt : String → String) (expressions : List Expression)
    (g : PhysicalPlanGenerator) :
    ∃ g1 planned, VisitExpressions fmt expressions g = some (g1, planned) ∧
      g1.plan = g.plan ∧ g1.context = g.context := by
  match expressions with
  | [] => rw [VisitExpressions]; exact ⟨_, _, rfl, rfl, rfl⟩
  | expr :: rest =>
    rw [VisitExpressions]
    obtain ⟨g1, e1, h1, hp1, hc1⟩ := VisitExpression_returns fmt expr g
    obtain ⟨g2, e2, h2, hp2, hc2⟩ := VisitExpressions_returns fmt rest g1
    simp only [h1, h2]
    exact ⟨_, _, rfl, hp2.trans hp1, hc2.trans hc1⟩

theorem VisitExpression_returns (fmt : String → String) (expr : Expression)
    (g : PhysicalPlanGenerator) :
    ∃ g1 planned, VisitExpression fmt expr g = some (g1, planned) ∧
      g1.plan = g.plan ∧ g1.context = g.context := by
  match expr with
  | .SubqueryExpression op context =>
    rw [VisitExpression]
    refine VisitSubqueryExpressionWith_returns _ g (fun g0 => ?_)
    obtain ⟨b, g1, h1, -, -⟩ := CreatePlanWith_returns fmt (fun g => Accept fmt op g) g0
      context (fun g0 h0 => Accept_completes fmt op g0 h0)
    exact ⟨b, g1, h1⟩
  | .other tag children =>
    rw [VisitExpression]
    obtain ⟨g1, e1, h1, hp1, hc1⟩ := VisitExpressions_returns fmt children g
    simp only [h1]
    exact ⟨_, _, rfl, hp1, hc1⟩
end

/-! ## The walk does not read the message -/

theorem VisitLogicalAggregate_sim (select_list groups : List PlannedExpression)
    (a b : PhysicalPlanGenerator) (h : Sim a b) :
    SimC (VisitLogicalAggregate select_list groups a)
      (VisitLogicalAggregate select_list groups b) := by
  obtain ⟨hp, hc, hsu⟩ := h
  unfold VisitLogicalAggregate
  simp only [← hp]
  split <;> split <;> simp_all [SimC, Sim]

theorem VisitLogicalDistinct_sim (a b : PhysicalPlanGenerator) (h : Sim a b) :
    SimC (VisitLogicalDistinct a) (VisitLogicalDistinct b) :=
  ⟨rfl, h⟩

theorem VisitLogicalFilter_sim (expressions : List PlannedExpression)
    (a b : PhysicalPlanGenerator) (h : Sim a b) :
    SimC (VisitLogicalFilter expressions a) (VisitLogicalFilter expressions b) := by
  obtain ⟨hp, hc, hsu⟩ := h
  unfold VisitLogicalFilter
  simp only [← hp]
  split <;> simp [SimC, Sim, hp, hc, hsu]

theorem VisitLogicalLimit_sim (limit offset : Nat)
    (a b : PhysicalPlanGenerator) (h : Sim a b) :
    SimC (VisitLogicalLimit limit offset a) (VisitLogicalLimit limit offset b) := by
  obtain ⟨hp, hc, hsu⟩ := h
  unfold VisitLogicalLimit
  simp only [← hp]
  split <;> simp [SimC, Sim, hp, hc, hsu]

theorem VisitLogicalOrder_sim (description : OrderByDescription)
    (a b : PhysicalPlanGenerator) (h : Sim a b) :
    SimC (VisitLogicalOrder description a) (VisitLogicalOrder description b) := by
  obtain ⟨hp, hc, hsu⟩ := h
  unfold VisitLogicalOrder
  simp only [← hp]
  split <;> simp [SimC, Sim, hp, hc, hsu]

theorem VisitLogicalProjection_sim (select_list : List PlannedExpression)
    (a b : PhysicalPlanGenerator) (h : Sim a b) :
    SimC (VisitLogicalProjection select_list a) (VisitLogicalProjection select_list b) := by
  obtain ⟨hp, hc, hsu⟩ := h
  unfold VisitLogicalProjection
  simp only [← hp]
  split <;> simp [SimC, Sim, hp, hc, hsu]

theorem VisitLogicalInsert_sim (table : Option TableCatalogEntry)
    (value_list : List PlannedExpression)
    (a b : PhysicalPlanGenerator) (h : Sim a b) :
    SimC (VisitLogicalInsert table value_list a) (VisitLogicalInsert table value_list b) := by
  obtain ⟨hp, hc, hsu⟩ := h
  unfold VisitLogicalInsert
  simp only [← hp]
  split <;> simp [SimC, Sim, hp, hc, hsu]

theorem VisitLogicalCopy_sim (table : Option TableCatalogEntry) (file_path : String)
    (is_from : Bool) (delimiter quote escape : Char)
    (a b : PhysicalPlanGenerator) (h : Sim a b) :
    SimC (VisitLogicalCopy table file_path is_from delimiter quote escape a)
      (VisitLogicalCopy table file_path is_from delimiter quote escape b) := by
  obtain ⟨hp, hc, hsu⟩ := h
  unfold VisitLogicalCopy
  simp only [← hp]
  split <;> simp [SimC, Sim, hp, hc, hsu]

theorem VisitLogicalGet_sim (table : Option TableCatalogEntry) (alias_ : String)
    (a b : PhysicalPlanGenerator) (h : Sim a b) (c1 : Completion)
    (h1 : VisitLogicalGet table alias_ a = some c1) :
    ∃ c2, VisitLogicalGet table alias_ b = some c2 ∧ SimC c1 c2 := by
  obtain ⟨hp, hc, hsu⟩ := h
  unfold VisitLogicalGet at h1 ⊢
  match table with
  | none => cases h1; exact ⟨_, rfl, hp, hc, hsu⟩
  | some table =>
    simp only [← hp, ← hc] at h1 ⊢
    cases hca : a.context with
    | none => simp [hca] at h1
    | some cx =>
      simp only [hca] at h1 ⊢
      cases hpa : a.plan <;> simp only [hpa] at h1 ⊢ <;> cases h1 <;>
        exact ⟨_, rfl, by simp_all [SimC, Sim]⟩

/-- What `CreatePlan` returns, and the plan, context and flag it leaves, do not depend on
the context, flag and message the generator held before. -/
theorem CreatePlanWith_sim (fmt : String → String)
    (accept : PhysicalPlanGenerator → Option Completion) (g1 g2 : PhysicalPlanGenerator)
    (context : BindContext) (h : g1.plan = g2.plan)
    (hacc : ∀ a b : PhysicalPlanGenerator, Sim a b → ∀ c1, accept a = some c1 →
      ∃ c2, accept b = some c2 ∧ SimC c1 c2)
    (b : Bool) (r1 : PhysicalPlanGenerator)
    (h1 : CreatePlanWith fmt accept g1 context = some (b, r1)) :
    ∃ r2, CreatePlanWith fmt accept g2 context = some (b, r2) ∧ Sim r1 r2 := by
  unfold CreatePlanWith at h1 ⊢
  cases hA : accept
      { plan := g1.plan, context := some context, success := false, message := g1.message } with
  | none => simp [hA] at h1
  | some c1 =>
    obtain ⟨c2, hB, hs⟩ := hacc
      { plan := g1.plan, context := some context, success := false, message := g1.message }
      { plan := g2.plan, context := some context, success := false, message := g2.message }
      ⟨h, rfl, rfl⟩ c1 hA
    simp only [hA] at h1
    simp only [hB]
    match c1, c2, hs with
    | .returned a, .returned b, hs =>
      obtain ⟨hp, hc, hsu⟩ := hs
      simp only [← hp, ← hc, ← hsu]
      cases hpa : a.plan <;> simp only [hpa] at h1 ⊢ <;> cases h1 <;>
        exact ⟨_, rfl, rfl, rfl, rfl⟩
    | .thrown (.duckdb e) a, .thrown f b, hs =>
      obtain ⟨rfl, hp, hc, hsu⟩ := hs
      simp only [← hp, ← hc, ← hsu]
      cases h1
      exact ⟨_, rfl, rfl, rfl, rfl⟩
    | .thrown .foreign a, .thrown f b, hs =>
      obtain ⟨rfl, hp, hc, hsu⟩ := hs
      simp only [← hp, ← hc, ← hsu]
      cases h1
      exact ⟨_, rfl, rfl, rfl, rfl⟩
    | .returned _, .thrown _ _, hs => exact hs.elim
    | .thrown _ _, .returned _, hs => exact hs.elim

theorem VisitSubqueryExpressionWith_sim
    (createPlan : PhysicalPlanGenerator → Option (Bool × PhysicalPlanGenerator))
    (g1 g2 : PhysicalPlanGenerator) (h : Sim g1 g2)
    (hcp : ∀ a b : PhysicalPlanGenerator, a.plan = b.plan → ∀ flag r1,
      createPlan a = some (flag, r1) → ∃ r2, createPlan b = some (flag, r2) ∧ Sim r1 r2)
    (r1 : PhysicalPlanGenerator) (planned : PlannedExpression)
    (h1 : VisitSubqueryExpressionWith createPlan g1 = some (r1, planned)) :
    ∃ r2, VisitSubqueryExpressionWith createPlan g2 = some (r2, planned) ∧ Sim r1 r2 := by
  unfold VisitSubqueryExpressionWith at h1 ⊢
  cases hA : createPlan
      { plan := none, context := none, success := g1.success, message := g1.message } with
  | none => simp [hA] at h1
  | some p1 =>
    obtain ⟨flag, a⟩ := p1
    obtain ⟨a2, hB, hp, hc, hsu⟩ := hcp
      { plan := none, context := none, success := g1.success, message := g1.message }
      { plan := none, context := none, success := g2.success, message := g2.message }
      rfl flag a hA
    simp only [hA] at h1
    simp only [hB]
    cases h1
    refine ⟨⟨g2.plan, g2.context, a2.success, a2.message⟩, ?_, h.1, h.2.1, hsu⟩
    simp [hp]

mutual
theorem Accept_sim (fmt : String → String) (logical : LogicalOperator)
    (g1 g2 : PhysicalPlanGenerator) (h : Sim g1 g2) (c1 : Completion)
    (h1 : Accept fmt logical g1 = some c1) :
    ∃ c2, Accept fmt logical g2 = some c2 ∧ SimC c1 c2 := by
  match logical with
  | .LogicalAggregate children select_list groups =>
    rw [Accept] at h1 ⊢
    cases hA : AcceptChildren fmt children g1 with
    | none => simp [hA] at h1
    | some d1 =>
      obtain ⟨d2, hB, hs⟩ := AcceptChildren_sim fmt children g1 g2 h d1 hA
      simp only [hA] at h1
      simp only [hB]
      match d1, d2, hs with
      | .thrown e a, .thrown f b, hs => cases h1; exact ⟨_, rfl, hs⟩
      | .returned _, .thrown _ _, hs => exact hs.elim
      | .thrown _ _, .returned _, hs => exact hs.elim
      | .returned a, .returned b, hs =>
        cases hE : VisitExpressions fmt select_list a with
        | none => simp [hE] at h1
        | some p1 =>
          obtain ⟨r1, pl⟩ := p1
          obtain ⟨r2, hF, hs2⟩ := VisitExpressions_sim fmt select_list a b hs r1 pl hE
          simp only [hE] at h1
          simp only [hF]
          cases hG : VisitExpressions fmt groups r1 with
          | none => simp [hG] at h1
          | some p2 =>
            obtain ⟨q1, gl⟩ := p2
            obtain ⟨q2, hH, hs3⟩ := VisitExpressions_sim fmt groups r1 r2 hs2 q1 gl hG
            simp only [hG] at h1
            simp only [hH]
            cases h1
            exact ⟨_, rfl, VisitLogicalAggregate_sim pl gl q1 q2 hs3⟩
  | .LogicalDistinct children =>
    rw [Accept] at h1 ⊢
    cases hA : AcceptChildren fmt children g1 with
    | none => simp [hA] at h1
    | some d1 =>
      obtain ⟨d2, hB, hs⟩ := AcceptChildren_sim fmt children g1 g2 h d1 hA
      simp only [hA] at h1
      simp only [hB]
      match d1, d2, hs with
      | .thrown e a, .thrown f b, hs => cases h1; exact ⟨_, rfl, hs⟩
      | .returned _, .thrown _ _, hs => exact hs.elim
      | .thrown _ _, .returned _, hs => exact hs.elim
      | .returned a, .returned b, hs =>
        cases h1
        exact ⟨_, rfl, VisitLogicalDistinct_sim a b hs⟩
  | .LogicalFilter children expressions =>
    rw [Accept] at h1 ⊢
    cases hA : AcceptChildren fmt children g1 with
    | none => simp [hA] at h1
    | some d1 =>
      obtain ⟨d2, hB, hs⟩ := AcceptChildren_sim fmt children g1 g2 h d1 hA
      simp only [hA] at h1
      simp only [hB]
      match d1, d2, hs with
      | .thrown e a, .thrown f b, hs => cases h1; exact ⟨_, rfl, hs⟩
      | .returned _, .thrown _ _, hs => exact hs.elim
      | .thrown _ _, .returned _, hs => exact hs.elim
      | .returned a, .returned b, hs =>
        cases hE : VisitExpressions fmt expressions a with
        | none => simp [hE] at h1
        | some p1 =>
          obtain ⟨r1, pl⟩ := p1
          obtain ⟨r2, hF, hs2⟩ := VisitExpressions_sim fmt expressions a b hs r1 pl hE
          simp only [hE] at h1
          simp only [hF]
          cases h1
          exact ⟨_, rfl, VisitLogicalFilter_sim pl r1 r2 hs2⟩
  | .LogicalGet children table alias_ =>
    rw [Accept] at h1 ⊢
    cases hA : AcceptChildren fmt children g1 with
    | none => simp [hA] at h1
    | some d1 =>
      obtain ⟨d2, hB, hs⟩ := AcceptChildren_sim fmt children g1 g2 h d1 hA
      simp only [hA] at h1
      simp only [hB]
      match d1, d2, hs with
      | .thrown e a, .thrown f b, hs => cases h1; exact ⟨_, rfl, hs⟩
      | .returned _, .thrown _ _, hs => exact hs.elim
      | .thrown _ _, .returned _, hs => exact hs.elim
      | .returned a, .returned b, hs =>
        exact VisitLogicalGet_sim table alias_ a b hs c1 h1
  | .LogicalLimit children limit offset =>
    rw [Accept] at h1 ⊢
    cases hA : AcceptChildren fmt children g1 with
    | none => simp [hA] at h1
    | some d1 =>
      obtain ⟨d2, hB, hs⟩ := AcceptChildren_sim fmt children g1 g2 h d1 hA
      simp only [hA] at h1
      simp only [hB]
      match d1, d2, hs with
      | .thrown e a, .thrown f b, hs => cases h1; exact ⟨_, rfl, hs⟩
      | .returned _, .thrown _ _, hs => exact hs.elim
      | .thrown _ _, .returned _, hs => exact hs.elim
      | .returned a, .returned b, hs =>
        cases h1
        exact ⟨_, rfl, VisitLogicalLimit_sim limit offset a b hs⟩
  | .LogicalOrder children description =>
    rw [Accept] at h1 ⊢
    cases hA : AcceptChildren fmt children g1 with
    | none => simp [hA] at h1
    | some d1 =>
      obtain ⟨d2, hB, hs⟩ := AcceptChildren_sim fmt children g1 g2 h d1 hA
      simp only [hA] at h1
      simp only [hB]
      match d1, d2, hs with
      | .thrown e a, .thrown f b, hs => cases h1; exact ⟨_, rfl, hs⟩
      | .returned _, .thrown _ _, hs => exact hs.elim
      | .thrown _ _, .returned _, hs => exact hs.elim
      | .returned a, .returned b, hs =>
        cases h1
        exact ⟨_, rfl, VisitLogicalOrder_sim description a b hs⟩
  | .LogicalProjection children select_list =>
    rw [Accept] at h1 ⊢
    cases hA : AcceptChildren fmt children g1 with
    | none => simp [hA] at h1
    | some d1 =>
      obtain ⟨d2, hB, hs⟩ := AcceptChildren_sim fmt children g1 g2 h d1 hA
      simp only [hA] at h1
      simp only [hB]
      match d1, d2, hs with
      | .thrown e a, .thrown f b, hs => cases h1; exact ⟨_, rfl, hs⟩
      | .returned _, .thrown _ _, hs => exact hs.elim
      | .thrown _ _, .returned _, hs => exact hs.elim
      | .returned a, .returned b, hs =>
        cases hE : VisitExpressions fmt select_list a with
        | none => simp [hE] at h1
        | some p1 =>
          obtain ⟨r1, pl⟩ := p1
          obtain ⟨r2, hF, hs2⟩ := VisitExpressions_sim fmt select_list a b hs r1 pl hE
          simp only [hE] at h1
          simp only [hF]
          cases h1
          exact ⟨_, rfl, VisitLogicalProjection_sim pl r1 r2 hs2⟩
  | .LogicalInsert children table value_list =>
    rw [Accept] at h1 ⊢
    cases hA : AcceptChildren fmt children g1 with
    | none => simp [hA] at h1
    | some d1 =>
      obtain ⟨d2, hB, hs⟩ := AcceptChildren_sim fmt children g1 g2 h d1 hA
      simp only [hA] at h1
      simp only [hB]
      match d1, d2, hs with
      | .thrown e a, .thrown f b, hs => cases h1; exact ⟨_, rfl, hs⟩
      | .returned _, .thrown _ _, hs => exact hs.elim
      | .thrown _ _, .returned _, hs => exact hs.elim
      | .returned a, .returned b, hs =>
        cases hE : VisitExpressions fmt value_list a with
        | none => simp [hE] at h1
        | some p1 =>
          obtain ⟨r1, pl⟩ := p1
          obtain ⟨r2, hF, hs2⟩ := VisitExpressions_sim fmt value_list a b hs r1 pl hE
          simp only [hE] at h1
          simp only [hF]
          cases h1
          exact ⟨_, rfl, VisitLogicalInsert_sim table pl r1 r2 hs2⟩
  | .LogicalCopy children table file_path is_from delimiter quote escape =>
    rw [Accept] at h1 ⊢
    cases hA : AcceptChildren fmt children g1 with
    | none => simp [hA] at h1
    | some d1 =>
      obtain ⟨d2, hB, hs⟩ := AcceptChildren_sim fmt children g1 g2 h d1 hA
      simp only [hA] at h1
      simp only [hB]
      match d1, d2, hs with
      | .thrown e a, .thrown f b, hs => cases h1; exact ⟨_, rfl, hs⟩
      | .returned _, .thrown _ _, hs => exact hs.elim
      | .thrown _ _, .returned _, hs => exact hs.elim
      | .returned a, .returned b, hs =>
        cases h1
        exact ⟨_, rfl,
          VisitLogicalCopy_sim table file_path is_from delimiter quote escape a b hs⟩

theorem AcceptChildren_sim (fmt : String → String) (children : List LogicalOperator)
    (g1 g2 : PhysicalPlanGenerator) (h : Sim g1 g2) (c1 : Completion)
    (h1 : AcceptChildren fmt children g1 = some c1) :
    ∃ c2, AcceptChildren fmt children g2 = some c2 ∧ SimC c1 c2 := by
  match children with
  | [] =>
    rw [AcceptChildren] at h1 ⊢
    cases h1
    exact ⟨_, rfl, h⟩
  | child :: rest =>
    rw [AcceptChildren] at h1 ⊢
    cases hA : Accept fmt child g1 with
    | none => simp [hA] at h1
    | some d1 =>
      obtain ⟨d2, hB, hs⟩ := Accept_sim fmt child g1 g2 h d1 hA
      simp only [hA] at h1
      simp only [hB]
      match d1, d2, hs with
      | .thrown e a, .thrown f b, hs => cases h1; exact ⟨_, rfl, hs⟩
      | .returned _, .thrown _ _, hs => exact hs.elim
      | .thrown _ _, .returned _, hs => exact hs.elim
      | .returned a, .returned b, hs => exact AcceptChildren_sim fmt rest a b hs c1 h1

theorem VisitExpressions_sim (fmt : String → String) (expressions : List Expression)
    (g1 g2 : PhysicalPlanGenerator) (h : Sim g1 g2) (r1 : PhysicalPlanGenerator)
    (planned : List PlannedExpression)
    (h1 : VisitExpressions fmt expressions g1 = some (r1, planned)) :
    ∃ r2, VisitExpressions fmt expressions g2 = some (r2, planned) ∧ Sim r1 r2 := by
  match expressions with
  | [] =>
    rw [VisitExpressions] at h1 ⊢
    cases h1
    exact ⟨_, rfl, h⟩
  | expr :: rest =>
    rw [VisitExpressions] at h1 ⊢
    cases hA : VisitExpression fmt expr g1 with
    | none => simp [hA] at h1
    | some p1 =>
      obtain ⟨a, e1⟩ := p1
      obtain ⟨b, hB, hs⟩ := VisitExpression_sim fmt expr g1 g2 h a e1 hA
      simp only [hA] at h1
      simp only [hB]
      cases hC : VisitExpressions fmt rest a with
      | none => simp [hC] at h1
      | some p2 =>
        obtain ⟨a2, e2⟩ := p2
        obtain ⟨b2, hD, hs2⟩ := VisitExpressions_sim fmt rest a b hs a2 e2 hC
        simp only [hC] at h1
        simp only [hD]
        cases h1
        exact ⟨_, rfl, hs2⟩

theorem VisitExpression_sim (fmt : String → String) (expr : Expression)
    (g1 g2 : PhysicalPlanGenerator) (h : Sim g1 g2) (r1 : PhysicalPlanGenerator)
    (planned : PlannedExpression)
    (h1 : VisitExpression fmt expr g1 = some (r1, planned)) :
    ∃ r2, VisitExpression fmt expr g2 = some (r2, planned) ∧ Sim r1 r2 := by
  match expr with
  | .SubqueryExpression op context =>
    rw [VisitExpression] at h1 ⊢
    exact VisitSubqueryExpressionWith_sim _ g1 g2 h
      (fun a b hab flag r1 hr => CreatePlanWith_sim fmt (fun g => Accept fmt op g) a b
        context hab (fun a b hab c1 hc => Accept_sim fmt op a b hab c1 hc) flag r1 hr)
      r1 planned h1
  | .other tag children =>
    rw [VisitExpression] at h1 ⊢
    cases hC : VisitExpressions fmt children g1 with
    | none => simp [hC] at h1
    | some p2 =>
      obtain ⟨a2, e2⟩ := p2
      obtain ⟨b2, hD, hs2⟩ := VisitExpressions_sim fmt children g1 g2 h a2 e2 hC
      simp only [hC] at h1
      simp only [hD]
      cases h1
      exact ⟨_, rfl, hs2⟩
end

/-! ## A walk that returns with an empty plan slot has changed nothing -/

mutual
theorem Accept_returned_empty (fmt : String → String) (logical : LogicalOperator)
    (g g1 : PhysicalPlanGenerator) (h : Accept fmt logical g = some (.returned g1))
    (hp : g1.plan = none) : g1 = g := by
  match logical with
  | .LogicalAggregate children select_list groups =>
    rw [Accept] at h
    split at h
    · cases h
    · cases h
    · split at h
      · cases h
      · split at h
        · cases h
        · simp only [VisitLogicalAggregate] at h
          split at h <;> split at h <;> first | (cases h; done) | (cases h; cases hp)
  | .LogicalDistinct children =>
    rw [Accept] at h
    split at h <;> cases h
  | .LogicalFilter children expressions =>
    rw [Accept] at h
    split at h
    · cases h
    · cases h
    · split at h
      · cases h
      · simp only [VisitLogicalFilter] at h
        split at h <;> first | (cases h; done) | (cases h; cases hp)
  | .LogicalGet children table alias_ =>
    rw [Accept] at h
    split at h
    · cases h
    · cases h
    · rename_i ga hA
      simp only [VisitLogicalGet] at h
      split at h
      · cases h
        exact AcceptChildren_returned_empty fmt children g g1 hA hp
      · split at h
        · cases h
        · split at h <;> first | (cases h; done) | (cases h; cases hp)
  | .LogicalLimit children limit offset =>
    rw [Accept] at h
    split at h
    · cases h
    · cases h
    · simp only [VisitLogicalLimit] at h
      split at h <;> first | (cases h; done) | (cases h; cases hp)
  | .LogicalOrder children description =>
    rw [Accept] at h
    split at h
    · cases h
    · cases h
    · simp only [VisitLogicalOrder] at h
      split at h <;> first | (cases h; done) | (cases h; cases hp)
  | .LogicalProjection children select_list =>
    rw [Accept] at h
    split at h
    · cases h
    · cases h
    · split at h
      · cases h
      · simp only [VisitLogicalProjection] at h
        split at h <;> first | (cases h; done) | (cases h; cases hp)
  | .LogicalInsert children table value_list =>
    rw [Accept] at h
    split at h
    · cases h
    · cases h
    · split at h
      · cases h
      · simp only [VisitLogicalInsert] at h
        split at h <;> first | (cases h; done) | (cases h; cases hp)
  | .LogicalCopy children table file_path is_from delimiter quote escape =>
    rw [Accept] at h
    split at h
    · cases h
    · cases h
    · simp only [VisitLogicalCopy] at h
      split at h <;> first | (cases h; done) | (cases h; cases hp)

theorem AcceptChildren_returned_empty (fmt : String → String)
    (children : List LogicalOperator) (g g1 : PhysicalPlanGenerator)
    (h : AcceptChildren fmt children g = some (.returned g1)) (hp : g1.plan = none) :
    g1 = g := by
  match children with
  | [] =>
    rw [AcceptChildren] at h
    cases h
    rfl
  | child :: rest =>
    rw [AcceptChildren] at h
    split at h
    · cases h
    · cases h
    · rename_i ga hA
      have h2 : g1 = ga := AcceptChildren_returned_empty fmt rest ga g1 h hp
      exact h2.trans (Accept_returned_empty fmt child g ga hA (h2 ▸ hp))
end

theorem VisitExpressions_length (fmt : String → String) (expressions : List Expression) :
    ∀ (g g1 : PhysicalPlanGenerator) (planned : List PlannedExpression),
      VisitExpressions fmt expressions g = some (g1, planned) →
      planned.length = expressions.length := by
  induction expressions with
  | nil =>
    intro g g1 planned h
    rw [VisitExpressions] at h
    cases h
    rfl
  | cons expr rest ih =>
    intro g g1 planned h
    rw [VisitExpressions] at h
    split at h
    · cases h
    · split at h
      · cases h
      · rename_i hB
        cases h
        simpa using ih _ _ _ hB

/-- Totality of `CreatePlan`: it returns on every generator, and the flag it returns is the
success flag. -/
theorem CreatePlan_returns (fmt : String → String) (g : PhysicalPlanGenerator)
    (logical : LogicalOperator) (context : BindContext) :
    ∃ b g1, CreatePlan fmt g logical context = some (b, g1) ∧ b = g1.success ∧
      g1.context.isSome = true :=
  CreatePlanWith_returns fmt (fun g => Accept fmt logical g) g context
    (fun g0 h0 => Accept_completes fmt logical g0 h0)

/-- Two generators with the same plan slot get the same flag, plan and context from
`CreatePlan`. -/
theorem CreatePlan_sim (fmt : String → String) (g1 g2 : PhysicalPlanGenerator)
    (logical : LogicalOperator) (context : BindContext) (h : g1.plan = g2.plan)
    (b : Bool) (r1 : PhysicalPlanGenerator)
    (h1 : CreatePlan fmt g1 logical context = some (b, r1)) :
    ∃ r2, CreatePlan fmt g2 logical context = some (b, r2) ∧ Sim r1 r2 :=
  CreatePlanWith_sim fmt (fun g => Accept fmt logical g) g1 g2 context h
    (fun a b hab c1 hc => Accept_sim fmt logical a b hab c1 hc) b r1 h1

/-! ## What `CreatePlan` does where a handler rejects the shape of the tree -/

/-- A Filter whose children leave the plan slot empty: the message is the one of the Filter
and the plan slot stays empty; the flag returned is the success flag as the visit of the
expression list left it. -/
theorem CreatePlan_filter_without_input (fmt : String → String)
    (children : List LogicalOperator) (expressions : List Expression)
    (context : BindContext) (g1 : PhysicalPlanGenerator)
    (h : AcceptChildren fmt children ⟨none, some context, false, ""⟩ = some (.returned g1))
    (hp : g1.plan = none) :
    ∃ g2 planned,
      VisitExpressions fmt expressions ⟨none, some context, false, ""⟩ = some (g2, planned) ∧
      CreatePlan fmt .fresh (.LogicalFilter children expressions) context =
        some (g2.success,
          ⟨none, some context, g2.success, "Filter cannot be the first node of a plan!"⟩) := by
  have hg := AcceptChildren_returned_empty fmt children _ g1 h hp
  subst hg
  obtain ⟨g2, planned, hv, hp2, hc2⟩ := VisitExpressions_returns fmt expressions
    ⟨none, some context, false, ""⟩
  refine ⟨g2, planned, hv, ?_⟩
  have hp3 : g2.plan = none := hp2
  have hc3 : g2.context = some context := hc2
  simp [CreatePlan, CreatePlanWith, Accept, VisitLogicalFilter, PhysicalPlanGenerator.fresh,
    h, hv, hp3, hc3, Exception.GetMessage]

/-- An Order or a Limit whose children leave the plan slot empty: `CreatePlan` returns
false, the plan slot stays empty and the message is the one of the node. -/
theorem CreatePlan_order_limit_without_input (fmt : String → String)
    (children : List LogicalOperator) (context : BindContext) (g1 : PhysicalPlanGenerator)
    (h : AcceptChildren fmt children ⟨none, some context, false, ""⟩ = some (.returned g1))
    (hp : g1.plan = none) :
    (∀ description, CreatePlan fmt .fresh (.LogicalOrder children description) context =
      some (false,
        ⟨none, some context, false, "Order cannot be the first node of a plan!"⟩)) ∧
    (∀ limit offset, CreatePlan fmt .fresh (.LogicalLimit children limit offset) context =
      some (false,
        ⟨none, some context, false, "Limit cannot be the first node of a plan!"⟩)) := by
  have hg := AcceptChildren_returned_empty fmt children _ g1 h hp
  subst hg
  constructor
  · intro description
    simp [CreatePlan, CreatePlanWith, Accept, VisitLogicalOrder, PhysicalPlanGenerator.fresh,
      h, Exception.GetMessage]
  · intro limit offset
    simp [CreatePlan, CreatePlanWith, Accept, VisitLogicalLimit, PhysicalPlanGenerator.fresh,
      h, Exception.GetMessage]

/-- An Insert after its children returned: with a plan in the slot the message is the one
of the Insert and the flag returned is the success flag as the visit of the value list left
it; with an empty slot the plan is the insert node without children. -/
theorem CreatePlan_insert (fmt : String → String) (children : List LogicalOperator)
    (table : Option TableCatalogEntry) (value_list : List Expression)
    (context : BindContext) (g1 : PhysicalPlanGenerator)
    (h : AcceptChildren fmt children ⟨none, some context, false, ""⟩ = some (.returned g1)) :
    ∃ g2 planned, VisitExpressions fmt value_list g1 = some (g2, planned) ∧
      CreatePlan fmt .fresh (.LogicalInsert children table value_list) context =
        match g1.plan with
        | some plan =>
          some (g2.success,
            ⟨some plan, g2.context, g2.success, "Insert should be root node"⟩)
        | none =>
          some (true,
            ⟨some (.PhysicalInsert [] table planned), g2.context, true, g2.message⟩) := by
  obtain ⟨g2, planned, hv, hp2, -⟩ := VisitExpressions_returns fmt value_list g1
  refine ⟨g2, planned, hv, ?_⟩
  cases hp : g1.plan with
  | none =>
    have hp3 : g2.plan = none := hp2.trans hp
    simp [CreatePlan, CreatePlanWith, Accept, VisitLogicalInsert,
      PhysicalPlanGenerator.fresh, h, hv, hp3]
  | some plan =>
    have hp3 : g2.plan = some plan := hp2.trans hp
    simp [CreatePlan, CreatePlanWith, Accept, VisitLogicalInsert,
      PhysicalPlanGenerator.fresh, h, hv, hp3, Exception.GetMessage]

/-- A Copy after its children returned: with a plan in the slot the message is the one of
the Copy and the flag returned is the success flag as the children left it; with an empty
slot the plan is the copy node without children. -/
theorem CreatePlan_copy (fmt : String → String) (children : List LogicalOperator)
    (table : Option TableCatalogEntry) (file_path : String) (is_from : Bool)
    (delimiter quote escape : Char) (context : BindContext) (g1 : PhysicalPlanGenerator)
    (h : AcceptChildren fmt children ⟨none, some context, false, ""⟩ = some (.returned g1)) :
    CreatePlan fmt .fresh
        (.LogicalCopy children table file_path is_from delimiter quote escape) context =
      match g1.plan with
      | some plan =>
        some (g1.success, ⟨some plan, g1.context, g1.success, "Copy should be root node"⟩)
      | none =>
        some (true,
          ⟨some (.PhysicalCopy [] table file_path is_from delimiter quote escape),
            g1.context, true, g1.message⟩) := by
  cases hp : g1.plan with
  | none =>
    simp [CreatePlan, CreatePlanWith, Accept, VisitLogicalCopy,
      PhysicalPlanGenerator.fresh, h, hp]
  | some plan =>
    simp [CreatePlan, CreatePlanWith, Accept, VisitLogicalCopy,
      PhysicalPlanGenerator.fresh, h, hp, Exception.GetMessage]

/-- An Aggregate with grouping expressions whose children leave the plan slot empty: the
message is the GROUP BY one and the plan slot stays empty; the flag returned is the success
flag as the visits of the two expression lists left it. -/
theorem CreatePlan_group_by_without_input (fmt : String → String)
    (children : List LogicalOperator) (select_list groups : List Expression)
    (context : BindContext) (g1 : PhysicalPlanGenerator)
    (h : AcceptChildren fmt children ⟨none, some context, false, ""⟩ = some (.returned g1))
    (hp : g1.plan = none) (hg : groups ≠ []) :
    ∃ g2 planned g3 grouping,
      VisitExpressions fmt select_list ⟨none, some context, false, ""⟩ = some (g2, planned) ∧
      VisitExpressions fmt groups g2 = some (g3, grouping) ∧
      CreatePlan fmt .fresh (.LogicalAggregate children select_list groups) context =
        some (g3.success,
          ⟨none, some context, g3.success, "Cannot have GROUP BY without FROM clause!"⟩) := by
  have hg1 := AcceptChildren_returned_empty fmt children _ g1 h hp
  subst hg1
  obtain ⟨g2, planned, hv, hp2, hc2⟩ := VisitExpressions_returns fmt select_list
    ⟨none, some context, false, ""⟩
  obtain ⟨g3, grouping, hw, hp3, hc3⟩ := VisitExpressions_returns fmt groups g2
  refine ⟨g2, planned, g3, grouping, hv, hw, ?_⟩
  have hp4 : g3.plan = none := hp3.trans hp2
  have hc4 : g3.context = some context := hc3.trans hc2
  have hl : grouping ≠ [] := by
    intro he
    have := VisitExpressions_length fmt groups g2 g3 grouping hw
    rw [he] at this
    exact hg (List.length_eq_zero.mp this.symm)
  simp [CreatePlan, CreatePlanWith, Accept, VisitLogicalAggregate,
    PhysicalPlanGenerator.fresh, h, hv, hw, hp4, hc4, hl, Exception.GetMessage]

/-! ## The claims -/

/-- C1: for a tree that is a single Get bound to a real table, with no children, and every
bind context, `CreatePlan` on a fresh generator returns true and the plan is a table scan
with no children over the storage of the table, whose column ids are the name-to-id
translation of the columns the bind context records for the alias, in the same order and
of the same length. -/
theorem CreatePlan_single_get (fmt : String → String) (table : TableCatalogEntry)
    (alias_ : String) (context : BindContext) :
    CreatePlan fmt .fresh (.LogicalGet [] (some table) alias_) context =
      some (true,
        ⟨some (.PhysicalTableScan [] table.storage
            ((context.columns alias_).map table.column_id)),
          some (context.touch alias_), true, ""⟩) ∧
    ((context.columns alias_).map table.column_id).length =
      (context.columns alias_).length :=
  ⟨rfl, List.length_map _ _⟩

/-- C2 (failing input): a Filter without input whose expression list holds a subquery that
plans successfully. The nested `CreatePlan` leaves the success flag true, the Filter then
raises, and the outer `CreatePlan` returns true with an empty plan slot. -/
theorem CreatePlan_true_without_plan (fmt : String → String) :
    CreatePlan fmt .fresh
        (.LogicalFilter [] [.SubqueryExpression (.LogicalProjection [] []) ⟨[]⟩]) ⟨[]⟩ =
      some (true,
        ⟨none, some ⟨[]⟩, true, "Filter cannot be the first node of a plan!"⟩) :=
  rfl

/-- C3 (failing input): a Projection whose select list holds a subquery rooted at a
Distinct. The nested generation fails, the outer `CreatePlan` goes on and returns true, the
subquery expression is left with an empty plan slot. -/
theorem CreatePlan_swallows_subquery_failure (fmt : String → String) :
    CreatePlan fmt .fresh
        (.LogicalProjection [] [.SubqueryExpression (.LogicalDistinct []) ⟨[]⟩]) ⟨[]⟩ =
      some (true,
        ⟨some (.PhysicalProjection [] [.SubqueryExpression none]), some ⟨[]⟩, true,
          fmt "distinct clause"⟩) :=
  rfl

/-- C4: on every generator state and for every subquery expression,
`Visit(SubqueryExpression &)` returns, and the plan slot and the bind context of the
generator are then what they were before the visit, whatever the nested generation did. -/
theorem VisitSubqueryExpression_restores (fmt : String → String) (op : LogicalOperator)
    (context : BindContext) (g : PhysicalPlanGenerator) :
    ∃ g1 planned, VisitSubqueryExpression fmt op context g = some (g1, planned) ∧
      g1.plan = g.plan ∧ g1.context = g.context :=
  VisitSubqueryExpressionWith_returns _ g (fun g0 =>
    (CreatePlan_returns fmt g0 op context).imp fun _ hb => hb.imp fun _ hg => hg.1)

/-- C5: on every generator state, the plan that `Visit(SubqueryExpression &)` stores in the
plan slot of the expression is the plan that `CreatePlan` on the embedded tree and context
leaves in the plan slot of a fresh generator. -/
theorem VisitSubqueryExpression_plan (fmt : String → String) (op : LogicalOperator)
    (context : BindContext) (g : PhysicalPlanGenerator) :
    ∃ b r g1, CreatePlan fmt .fresh op context = some (b, r) ∧
      VisitSubqueryExpression fmt op context g = some (g1, .SubqueryExpression r.plan) := by
  obtain ⟨b, r, hr, -, -⟩ := CreatePlan_returns fmt .fresh op context
  obtain ⟨r2, h2, hp, -, -⟩ := CreatePlan_sim fmt .fresh
    ⟨none, none, g.success, g.message⟩ op context rfl b r hr
  refine ⟨b, r, ⟨g.plan, g.context, r2.success, r2.message⟩, hr, ?_⟩
  unfold VisitSubqueryExpression VisitSubqueryExpressionWith
  simp only [h2, hp]

/-- C6 (failing input): a Filter over a dummy Get whose condition compares a subquery that
plans successfully. The children leave the plan slot empty and the Filter raises its
message, yet `CreatePlan` returns true. -/
theorem CreatePlan_filter_returns_true (fmt : String → String) :
    CreatePlan fmt .fresh
        (.LogicalFilter [.LogicalGet [] none "t"]
          [.other "=" [.SubqueryExpression (.LogicalProjection [] []) ⟨[]⟩, .other "1" []]])
        ⟨[]⟩ =
      some (true,
        ⟨none, some ⟨[]⟩, true, "Filter cannot be the first node of a plan!"⟩) :=
  rfl

/-- C7 (failing input): an Insert over a real-table Get whose value list holds a subquery
that plans successfully. The Insert raises its message with the scan in the plan slot, yet
`CreatePlan` returns true. -/
theorem CreatePlan_insert_returns_true (fmt : String → String) (table : TableCatalogEntry) :
    CreatePlan fmt .fresh
        (.LogicalInsert [.LogicalGet [] (some table) "t"] (some table)
          [.SubqueryExpression (.LogicalProjection [] []) ⟨[]⟩])
        ⟨[("t", [])]⟩ =
      some (true,
        ⟨some (.PhysicalTableScan [] table.storage []), some ⟨[("t", [])]⟩, true,
          "Insert should be root node"⟩) :=
  rfl

/-- C8: for an Aggregate with an empty grouping list and any select list whose children
leave the plan slot empty, `CreatePlan` on a fresh generator returns true and the plan is
one hash aggregate with the select list as the walk left it, no grouping expressions and no
children. -/
theorem CreatePlan_aggregate_leaf (fmt : String → String) (children : List LogicalOperator)
    (select_list : List Expression) (context : BindContext) (g1 : PhysicalPlanGenerator)
    (h : AcceptChildren fmt children ⟨none, some context, false, ""⟩ = some (.returned g1))
    (hp : g1.plan = none) :
    ∃ g2 planned, VisitExpressions fmt select_list g1 = some (g2, planned) ∧
      CreatePlan fmt .fresh (.LogicalAggregate children select_list []) context =
        some (true,
          ⟨some (.PhysicalHashAggregate [] planned []), g2.context, true, g2.message⟩) := by
  obtain ⟨g2, planned, hv, hp2, -⟩ := VisitExpressions_returns fmt select_list g1
  refine ⟨g2, planned, hv, ?_⟩
  have hp3 : g2.plan = none := hp2.trans hp
  simp [CreatePlan, CreatePlanWith, Accept, VisitLogicalAggregate,
    PhysicalPlanGenerator.fresh, h, hv, VisitExpressions, hp3]

/-- C8 at an Aggregate of `count(*)` over a dummy Get. -/
theorem CreatePlan_aggregate_leaf_witness :
    ∃ g2 planned,
      VisitExpressions id [.other "count(*)" []] ⟨none, some ⟨[]⟩, false, ""⟩ =
        some (g2, planned) ∧
      CreatePlan id .fresh
          (.LogicalAggregate [.LogicalGet [] none "t"] [.other "count(*)" []] []) ⟨[]⟩ =
        some (true,
          ⟨some (.PhysicalHashAggregate [] planned []), g2.context, true, g2.message⟩) :=
  CreatePlan_aggregate_leaf id [.LogicalGet [] none "t"] [.other "count(*)" []] ⟨[]⟩
    ⟨none, some ⟨[]⟩, false, ""⟩ rfl rfl

/-- C9 (failing input): an Aggregate with a grouping column and no input whose select list
holds a subquery that plans successfully. The Aggregate raises its message, yet
`CreatePlan` returns true. -/
theorem CreatePlan_group_by_returns_true (fmt : String → String) :
    CreatePlan fmt .fresh
        (.LogicalAggregate [] [.SubqueryExpression (.LogicalProjection [] []) ⟨[]⟩]
          [.other "g" []])
        ⟨[]⟩ =
      some (true,
        ⟨none, some ⟨[]⟩, true, "Cannot have GROUP BY without FROM clause!"⟩) :=
  rfl

/-- C10 (counterexample): under a Distinct root a child that fails decides the message. A
Filter child without input gives the Filter message, a Limit child without input gives the
Limit message; so no rendering of the not-implemented message is the message of every
Distinct-rooted tree. -/
theorem CreatePlan_distinct_child_message :
    (∀ fmt : String → String,
      CreatePlan fmt .fresh (.LogicalDistinct [.LogicalFilter [] []]) ⟨[]⟩ =
        some (false,
          ⟨none, some ⟨[]⟩, false, "Filter cannot be the first node of a plan!"⟩)) ∧
    (∀ fmt : String → String,
      CreatePlan fmt .fresh (.LogicalDistinct [.LogicalLimit [] 1 0]) ⟨[]⟩ =
        some (false,
          ⟨none, some ⟨[]⟩, false, "Limit cannot be the first node of a plan!"⟩)) ∧
    ¬ ∃ fmt : String → String, ∀ (children : List LogicalOperator) (context : BindContext),
        ∃ g, CreatePlan fmt .fresh (.LogicalDistinct children) context = some (false, g) ∧
          g.message = fmt "distinct clause" := by
  refine ⟨fun _ => rfl, fun _ => rfl, ?_⟩
  rintro ⟨fmt, h⟩
  obtain ⟨g1, h1, m1⟩ := h [.LogicalFilter [] []] ⟨[]⟩
  obtain ⟨g2, h2, m2⟩ := h [.LogicalLimit [] 1 0] ⟨[]⟩
  have e1 : CreatePlan fmt .fresh (.LogicalDistinct [.LogicalFilter [] []]) ⟨[]⟩ =
      some (false,
        ⟨none, some ⟨[]⟩, false, "Filter cannot be the first node of a plan!"⟩) := rfl
  have e2 : CreatePlan fmt .fresh (.LogicalDistinct [.LogicalLimit [] 1 0]) ⟨[]⟩ =
      some (false,
        ⟨none, some ⟨[]⟩, false, "Limit cannot be the first node of a plan!"⟩) := rfl
  rw [e1] at h1
  rw [e2] at h2
  cases h1
  cases h2
  simp only at m1 m2
  have hne : "Filter cannot be the first node of a plan!" ≠
      "Limit cannot be the first node of a plan!" := by decide
  exact hne (m1.trans m2.symm)

/-- C10 (amended): `CreatePlan` on a Distinct root always ends in its catch clause. When the
children lower without raising, the message is the not-implemented message for
"distinct clause"; when a child raises, the message is the one of that failure. The flag
returned is the success flag as the walk left it. -/
theorem CreatePlan_distinct (fmt : String → String) (children : List LogicalOperator)
    (context : BindContext) :
    ∃ c, AcceptChildren fmt children ⟨none, some context, false, ""⟩ = some c ∧
      CreatePlan fmt .fresh (.LogicalDistinct children) context =
        match c with
        | .returned g1 =>
          some (g1.success, ⟨g1.plan, g1.context, g1.success, fmt "distinct clause"⟩)
        | .thrown (.duckdb ex) g1 =>
          some (g1.success, ⟨g1.plan, g1.context, g1.success, ex.GetMessage fmt⟩)
        | .thrown .foreign g1 =>
          some (g1.success,
            ⟨g1.plan, g1.context, g1.success,
              "UNHANDLED EXCEPTION TYPE THROWN IN PLANNER!"⟩) := by
  obtain ⟨c, hc, -⟩ := AcceptChildren_completes fmt children
    ⟨none, some context, false, ""⟩ rfl
  refine ⟨c, hc, ?_⟩
  unfold CreatePlan CreatePlanWith
  simp only [Accept, PhysicalPlanGenerator.fresh, hc]
  match c with
  | .returned g1 => rfl
  | .thrown (.duckdb ex) g1 => rfl
  | .thrown .foreign g1 => rfl

/-! ## Every plan in the slot is one the handlers build -/

theorem VisitLogicalAggregate_built (select_list groups : List PlannedExpression)
    (g : PhysicalPlanGenerator) (h : BuiltSlot g.plan) :
    BuiltSlot (VisitLogicalAggregate select_list groups g).state.plan := by
  unfold VisitLogicalAggregate
  cases hp : g.plan with
  | none => split <;> simp [Completion.state, BuiltSlot, hp, Built.aggregate_leaf]
  | some p =>
    rw [hp] at h
    split <;> simp [Completion.state, BuiltSlot, Built.aggregate _ _ _ h]

theorem VisitLogicalDistinct_built (g : PhysicalPlanGenerator) (h : BuiltSlot g.plan) :
    BuiltSlot (VisitLogicalDistinct g).state.plan :=
  h

theorem VisitLogicalFilter_built (expressions : List PlannedExpression)
    (g : PhysicalPlanGenerator) (h : BuiltSlot g.plan) :
    BuiltSlot (VisitLogicalFilter expressions g).state.plan := by
  unfold VisitLogicalFilter
  cases hp : g.plan with
  | none => simp [Completion.state, BuiltSlot, hp]
  | some p =>
    rw [hp] at h
    simp [Completion.state, BuiltSlot, Built.filter _ _ h]

theorem VisitLogicalGet_built (table : Option TableCatalogEntry) (alias_ : String)
    (g : PhysicalPlanGenerator) (c : Completion) (h : BuiltSlot g.plan)
    (hc : VisitLogicalGet table alias_ g = some c) : BuiltSlot c.state.plan := by
  unfold VisitLogicalGet at hc
  match table with
  | none => cases hc; exact h
  | some table =>
    simp only at hc
    cases hx : g.context with
    | none => simp [hx] at hc
    | some context =>
      simp only [hx] at hc
      cases hp : g.plan with
      | none =>
        simp only [hp] at hc
        cases hc
        exact Built.scan _ _
      | some p =>
        simp only [hp] at hc
        cases hc
        rw [hp] at h
        simpa [Completion.state, hp, BuiltSlot] using h

theorem VisitLogicalLimit_built (limit offset : Nat) (g : PhysicalPlanGenerator)
    (h : BuiltSlot g.plan) : BuiltSlot (VisitLogicalLimit limit offset g).state.plan := by
  unfold VisitLogicalLimit
  cases hp : g.plan with
  | none => simp [Completion.state, BuiltSlot, hp]
  | some p =>
    rw [hp] at h
    simp [Completion.state, BuiltSlot, Built.limit _ _ _ h]

theorem VisitLogicalOrder_built (description : OrderByDescription)
    (g : PhysicalPlanGenerator) (h : BuiltSlot g.plan) :
    BuiltSlot (VisitLogicalOrder description g).state.plan := by
  unfold VisitLogicalOrder
  cases hp : g.plan with
  | none => simp [Completion.state, BuiltSlot, hp]
  | some p =>
    rw [hp] at h
    simp [Completion.state, BuiltSlot, Built.order _ _ h]

theorem VisitLogicalProjection_built (select_list : List PlannedExpression)
    (g : PhysicalPlanGenerator) (h : BuiltSlot g.plan) :
    BuiltSlot (VisitLogicalProjection select_list g).state.plan := by
  unfold VisitLogicalProjection
  cases hp : g.plan with
  | none => simp [Completion.state, BuiltSlot, Built.projection_leaf]
  | some p =>
    rw [hp] at h
    simp [Completion.state, BuiltSlot, Built.projection _ _ h]

theorem VisitLogicalInsert_built (table : Option TableCatalogEntry)
    (value_list : List PlannedExpression) (g : PhysicalPlanGenerator)
    (h : BuiltSlot g.plan) :
    BuiltSlot (VisitLogicalInsert table value_list g).state.plan := by
  unfold VisitLogicalInsert
  cases hp : g.plan with
  | none => simp [Completion.state, BuiltSlot, Built.insert]
  | some p =>
    rw [hp] at h
    simpa [Completion.state, BuiltSlot, hp] using h

theorem VisitLogicalCopy_built (table : Option TableCatalogEntry) (file_path : String)
    (is_from : Bool) (delimiter quote escape : Char) (g : PhysicalPlanGenerator)
    (h : BuiltSlot g.plan) :
    BuiltSlot
      (VisitLogicalCopy table file_path is_from delimiter quote escape g).state.plan := by
  unfold VisitLogicalCopy
  cases hp : g.plan with
  | none => simp [Completion.state, BuiltSlot, Built.copy]
  | some p =>
    rw [hp] at h
    simpa [Completion.state, BuiltSlot, hp] using h

mutual
theorem Accept_built (fmt : String → String) (logical : LogicalOperator)
    (g : PhysicalPlanGenerator) (c : Completion) (hb : BuiltSlot g.plan)
    (h : Accept fmt logical g = some c) : BuiltSlot c.state.plan := by
  match logical with
  | .LogicalAggregate children select_list groups =>
    rw [Accept] at h
    cases hA : AcceptChildren fmt children g with
    | none => simp [hA] at h
    | some d =>
      have hd := AcceptChildren_built fmt children g d hb hA
      simp only [hA] at h
      match d, hd with
      | .thrown ex a, hd => cases h; exact hd
      | .returned a, hd =>
        obtain ⟨g2, planned, hv, hp, -⟩ := VisitExpressions_returns fmt select_list a
        obtain ⟨g3, grouping, hw, hq, -⟩ := VisitExpressions_returns fmt groups g2
        simp only [hv, hw] at h
        cases h
        exact VisitLogicalAggregate_built planned grouping g3 (hq ▸ hp ▸ hd)
  | .LogicalDistinct children =>
    rw [Accept] at h
    cases hA : AcceptChildren fmt children g with
    | none => simp [hA] at h
    | some d =>
      have hd := AcceptChildren_built fmt children g d hb hA
      simp only [hA] at h
      match d, hd with
      | .thrown ex a, hd => cases h; exact hd
      | .returned a, hd =>
        cases h
        exact VisitLogicalDistinct_built a hd
  | .LogicalFilter children expressions =>
    rw [Accept] at h
    cases hA : AcceptChildren fmt children g with
    | none => simp [hA] at h
    | some d =>
      have hd := AcceptChildren_built fmt children g d hb hA
      simp only [hA] at h
      match d, hd with
      | .thrown ex a, hd => cases h; exact hd
      | .returned a, hd =>
        obtain ⟨g2, planned, hv, hp, -⟩ := VisitExpressions_returns fmt expressions a
        simp only [hv] at h
        cases h
        exact VisitLogicalFilter_built planned g2 (hp ▸ hd)
  | .LogicalGet children table alias_ =>
    rw [Accept] at h
    cases hA : AcceptChildren fmt children g with
    | none => simp [hA] at h
    | some d =>
      have hd := AcceptChildren_built fmt children g d hb hA
      simp only [hA] at h
      match d, hd with
      | .thrown ex a, hd => cases h; exact hd
      | .returned a, hd =>
        exact VisitLogicalGet_built table alias_ a c hd h
  | .LogicalLimit children limit offset =>
    rw [Accept] at h
    cases hA : AcceptChildren fmt children g with
    | none => simp [hA] at h
    | some d =>
      have hd := AcceptChildren_built fmt children g d hb hA
      simp only [hA] at h
      match d, hd with
      | .thrown ex a, hd => cases h; exact hd
      | .returned a, hd =>
        cases h
        exact VisitLogicalLimit_built limit offset a hd
  | .LogicalOrder children description =>
    rw [Accept] at h
    cases hA : AcceptChildren fmt children g with
    | none => simp [hA] at h
    | some d =>
      have hd := AcceptChildren_built fmt children g d hb hA
      simp only [hA] at h
      match d, hd with
      | .thrown ex a, hd => cases h; exact hd
      | .returned a, hd =>
        cases h
        exact VisitLogicalOrder_built description a hd
  | .LogicalProjection children select_list =>
    rw [Accept] at h
    cases hA : AcceptChildren fmt children g with
    | none => simp [hA] at h
    | some d =>
      have hd := AcceptChildren_built fmt children g d hb hA
      simp only [hA] at h
      match d, hd with
      | .thrown ex a, hd => cases h; exact hd
      | .returned a, hd =>
        obtain ⟨g2, planned, hv, hp, -⟩ := VisitExpressions_returns fmt select_list a
        simp only [hv] at h
        cases h
        exact VisitLogicalProjection_built planned g2 (hp ▸ hd)
  | .LogicalInsert children table value_list =>
    rw [Accept] at h
    cases hA : AcceptChildren fmt children g with
    | none => simp [hA] at h
    | some d =>
      have hd := AcceptChildren_built fmt children g d hb hA
      simp only [hA] at h
      match d, hd with
      | .thrown ex a, hd => cases h; exact hd
      | .returned a, hd =>
        obtain ⟨g2, planned, hv, hp, -⟩ := VisitExpressions_returns fmt value_list a
        simp only [hv] at h
        cases h
        exact VisitLogicalInsert_built table planned g2 (hp ▸ hd)
  | .LogicalCopy children table file_path is_from delimiter quote escape =>
    rw [Accept] at h
    cases hA : AcceptChildren fmt children g with
    | none => simp [hA] at h
    | some d =>
      have hd := AcceptChildren_built fmt children g d hb hA
      simp only [hA] at h
      match d, hd with
      | .thrown ex a, hd => cases h; exact hd
      | .returned a, hd =>
        cases h
        exact VisitLogicalCopy_built table file_path is_from delimiter quote escape a hd

theorem AcceptChildren_built (fmt : String → String) (children : List LogicalOperator)
    (g : PhysicalPlanGenerator) (c : Completion) (hb : BuiltSlot g.plan)
    (h : AcceptChildren fmt children g = some c) : BuiltSlot c.state.plan := by
  match children with
  | [] =>
    rw [AcceptChildren] at h
    cases h
    exact hb
  | child :: rest =>
    rw [AcceptChildren] at h
    cases hA : Accept fmt child g with
    | none => simp [hA] at h
    | some d =>
      have hd := Accept_built fmt child g d hb hA
      simp only [hA] at h
      match d, hd with
      | .thrown ex a, hd => cases h; exact hd
      | .returned a, hd => exact AcceptChildren_built fmt rest a c hd h
end

/-- Whatever `CreatePlan` leaves in the plan slot is a plan the handlers build, provided the
slot held such a plan, or nothing, before. -/
theorem CreatePlan_built (fmt : String → String) (g : PhysicalPlanGenerator)
    (logical : LogicalOperator) (context : BindContext) (b : Bool)
    (g1 : PhysicalPlanGenerator) (hb : BuiltSlot g.plan)
    (h : CreatePlan fmt g logical context = some (b, g1)) : BuiltSlot g1.plan := by
  unfold CreatePlan CreatePlanWith at h
  cases hA : Accept fmt logical
      { plan := g.plan, context := some context, success := false, message := g.message } with
  | none => simp [hA] at h
  | some c =>
    have hc := Accept_built fmt logical
      { plan := g.plan, context := some context, success := false, message := g.message }
      c hb hA
    simp only [hA] at h
    match c, hc with
    | .returned a, hc =>
      simp only at h
      split at h <;> cases h <;> exact hc
    | .thrown (.duckdb ex) a, hc => cases h; exact hc
    | .thrown .foreign a, hc => cases h; exact hc

/-! ## The shape of the plans the handlers build -/

/-- A built plan is a chain whose nodes obey the arity rule, with insert and copy nodes
without children and at most one table scan. -/
theorem Built.shape (p : PhysicalOperator) (h : Built p) :
    p.nodes.all PhysicalNode.arityOk = true ∧
    p.nodes.all PhysicalNode.leafIfInsertOrCopy = true ∧
    p.nodes.all (fun n => decide (n.arity ≤ 1)) = true ∧
    (p.nodes.filter (fun n => decide (n.kind = .scan))).length ≤ 1 := by
  induction h with
  | scan storage column_ids =>
    simp [PhysicalOperator.nodes, nodesOfChildren, PhysicalNode.arityOk,
      PhysicalNode.leafIfInsertOrCopy]
  | filter p expressions _ ih =>
    simpa [PhysicalOperator.nodes, nodesOfChildren, PhysicalNode.arityOk,
      PhysicalNode.leafIfInsertOrCopy] using ih
  | aggregate_leaf select_list =>
    simp [PhysicalOperator.nodes, nodesOfChildren, PhysicalNode.arityOk,
      PhysicalNode.leafIfInsertOrCopy]
  | aggregate p select_list groups _ ih =>
    simp only [PhysicalOperator.nodes, nodesOfChildren, List.append_nil, List.all_append,
      Bool.and_eq_true, List.filter_append, List.length_append]
    refine ⟨⟨ih.1, ?_⟩, ⟨ih.2.1, by simp [PhysicalNode.leafIfInsertOrCopy]⟩,
      ⟨ih.2.2.1, by simp⟩, ?_⟩
    · by_cases hg : groups.length = 0 <;> simp [PhysicalNode.arityOk, hg]
    · simpa using ih.2.2.2
  | order p description _ ih =>
    simpa [PhysicalOperator.nodes, nodesOfChildren, PhysicalNode.arityOk,
      PhysicalNode.leafIfInsertOrCopy] using ih
  | limit p limit offset _ ih =>
    simpa [PhysicalOperator.nodes, nodesOfChildren, PhysicalNode.arityOk,
      PhysicalNode.leafIfInsertOrCopy] using ih
  | projection_leaf select_list =>
    simp [PhysicalOperator.nodes, nodesOfChildren, PhysicalNode.arityOk,
      PhysicalNode.leafIfInsertOrCopy]
  | projection p select_list _ ih =>
    simpa [PhysicalOperator.nodes, nodesOfChildren, PhysicalNode.arityOk,
      PhysicalNode.leafIfInsertOrCopy] using ih
  | insert table value_list =>
    simp [PhysicalOperator.nodes, nodesOfChildren, PhysicalNode.arityOk,
      PhysicalNode.leafIfInsertOrCopy]
  | copy table file_path is_from delimiter quote escape =>
    simp [PhysicalOperator.nodes, nodesOfChildren, PhysicalNode.arityOk,
      PhysicalNode.leafIfInsertOrCopy]

/-! ## The chain in the plan slot is the linearisation of the logical tree -/

theorem VisitLogicalAggregate_kinds (select_list groups : List PlannedExpression)
    (g g1 : PhysicalPlanGenerator)
    (h : VisitLogicalAggregate select_list groups g = .returned g1) :
    planKinds g1.plan = planKinds g.plan ++ [some .hashAggregate] := by
  unfold VisitLogicalAggregate at h
  cases hp : g.plan <;> simp only [hp] at h <;> split at h <;> cases h <;>
    simp [planKinds, planNodes, PhysicalOperator.nodes, nodesOfChildren]

theorem VisitLogicalFilter_kinds (expressions : List PlannedExpression)
    (g g1 : PhysicalPlanGenerator) (h : VisitLogicalFilter expressions g = .returned g1) :
    planKinds g1.plan = planKinds g.plan ++ [some .filter] := by
  unfold VisitLogicalFilter at h
  cases hp : g.plan <;>
    (simp only [hp] at h
     first
     | (cases h; done)
     | (cases h; simp [planKinds, planNodes, PhysicalOperator.nodes, nodesOfChildren]))

theorem VisitLogicalLimit_kinds (limit offset : Nat)
    (g g1 : PhysicalPlanGenerator) (h : VisitLogicalLimit limit offset g = .returned g1) :
    planKinds g1.plan = planKinds g.plan ++ [some .limit] := by
  unfold VisitLogicalLimit at h
  cases hp : g.plan <;>
    (simp only [hp] at h
     first
     | (cases h; done)
     | (cases h; simp [planKinds, planNodes, PhysicalOperator.nodes, nodesOfChildren]))

theorem VisitLogicalOrder_kinds (description : OrderByDescription)
    (g g1 : PhysicalPlanGenerator) (h : VisitLogicalOrder description g = .returned g1) :
    planKinds g1.plan = planKinds g.plan ++ [some .order] := by
  unfold VisitLogicalOrder at h
  cases hp : g.plan <;>
    (simp only [hp] at h
     first
     | (cases h; done)
     | (cases h; simp [planKinds, planNodes, PhysicalOperator.nodes, nodesOfChildren]))

theorem VisitLogicalProjection_kinds (select_list : List PlannedExpression)
    (g g1 : PhysicalPlanGenerator) (h : VisitLogicalProjection select_list g = .returned g1) :
    planKinds g1.plan = planKinds g.plan ++ [some .projection] := by
  unfold VisitLogicalProjection at h
  cases hp : g.plan <;>
    (simp only [hp] at h
     first
     | (cases h; done)
     | (cases h; simp [planKinds, planNodes, PhysicalOperator.nodes, nodesOfChildren]))

theorem VisitLogicalInsert_kinds (table : Option TableCatalogEntry)
    (value_list : List PlannedExpression)
    (g g1 : PhysicalPlanGenerator) (h : VisitLogicalInsert table value_list g = .returned g1) :
    planKinds g1.plan = planKinds g.plan ++ [some .insert] := by
  unfold VisitLogicalInsert at h
  cases hp : g.plan <;>
    (simp only [hp] at h
     first
     | (cases h; done)
     | (cases h; simp [planKinds, planNodes, PhysicalOperator.nodes, nodesOfChildren]))

theorem VisitLogicalCopy_kinds (table : Option TableCatalogEntry) (file_path : String)
    (is_from : Bool) (delimiter quote escape : Char)
    (g g1 : PhysicalPlanGenerator)
    (h : VisitLogicalCopy table file_path is_from delimiter quote escape g = .returned g1) :
    planKinds g1.plan = planKinds g.plan ++ [some .copy] := by
  unfold VisitLogicalCopy at h
  cases hp : g.plan <;>
    (simp only [hp] at h
     first
     | (cases h; done)
     | (cases h; simp [planKinds, planNodes, PhysicalOperator.nodes, nodesOfChildren]))

theorem VisitLogicalGet_kinds (table : TableCatalogEntry) (alias_ : String)
    (g g1 : PhysicalPlanGenerator)
    (h : VisitLogicalGet (some table) alias_ g = some (.returned g1)) :
    planKinds g1.plan = planKinds g.plan ++ [some .scan] := by
  unfold VisitLogicalGet at h
  simp only at h
  cases hx : g.context with
  | none => simp [hx] at h
  | some context =>
    simp only [hx] at h
    cases hp : g.plan <;> simp only [hp] at h <;> cases h
    simp [planKinds, planNodes, PhysicalOperator.nodes, nodesOfChildren]

mutual
theorem Accept_kinds (fmt : String → String) (logical : LogicalOperator)
    (g g1 : PhysicalPlanGenerator) (h : Accept fmt logical g = some (.returned g1)) :
    planKinds g1.plan = planKinds g.plan ++ logical.counterparts := by
  match logical with
  | .LogicalAggregate children select_list groups =>
    rw [Accept] at h
    cases hA : AcceptChildren fmt children g with
    | none => simp [hA] at h
    | some d =>
      simp only [hA] at h
      match d with
      | .thrown ex a => cases h
      | .returned a =>
        have ha := AcceptChildren_kinds fmt children g a hA
        obtain ⟨g2, planned, hv, hp, -⟩ := VisitExpressions_returns fmt select_list a
        obtain ⟨g3, grouping, hw, hq, -⟩ := VisitExpressions_returns fmt groups g2
        simp only [hv, hw, Option.some.injEq] at h
        rw [VisitLogicalAggregate_kinds planned grouping g3 g1 h, hq, hp, ha,
          LogicalOperator.counterparts, List.append_assoc]
  | .LogicalDistinct children =>
    rw [Accept] at h
    cases hA : AcceptChildren fmt children g with
    | none => simp [hA] at h
    | some d =>
      simp only [hA] at h
      match d with
      | .thrown ex a => cases h
      | .returned a =>
        have ha := AcceptChildren_kinds fmt children g a hA
        simp [VisitLogicalDistinct] at h
  | .LogicalFilter children expressions =>
    rw [Accept] at h
    cases hA : AcceptChildren fmt children g with
    | none => simp [hA] at h
    | some d =>
      simp only [hA] at h
      match d with
      | .thrown ex a => cases h
      | .returned a =>
        have ha := AcceptChildren_kinds fmt children g a hA
        obtain ⟨g2, planned, hv, hp, -⟩ := VisitExpressions_returns fmt expressions a
        simp only [hv, Option.some.injEq] at h
        rw [VisitLogicalFilter_kinds planned g2 g1 h, hp, ha,
          LogicalOperator.counterparts, List.append_assoc]
  | .LogicalGet children table alias_ =>
    rw [Accept] at h
    cases hA : AcceptChildren fmt children g with
    | none => simp [hA] at h
    | some d =>
      simp only [hA] at h
      match d with
      | .thrown ex a => cases h
      | .returned a =>
        have ha := AcceptChildren_kinds fmt children g a hA
        match table with
        | none =>
          simp only [VisitLogicalGet, Option.some.injEq, Completion.returned.injEq] at h
          subst h
          rw [ha, LogicalOperator.counterparts]
        | some table =>
          rw [VisitLogicalGet_kinds table alias_ a g1 h, ha, LogicalOperator.counterparts,
            List.append_assoc]
  | .LogicalLimit children limit offset =>
    rw [Accept] at h
    cases hA : AcceptChildren fmt children g with
    | none => simp [hA] at h
    | some d =>
      simp only [hA] at h
      match d with
      | .thrown ex a => cases h
      | .returned a =>
        have ha := AcceptChildren_kinds fmt children g a hA
        simp only [Option.some.injEq] at h
        rw [VisitLogicalLimit_kinds limit offset a g1 h, ha,
          LogicalOperator.counterparts, List.append_assoc]
  | .LogicalOrder children description =>
    rw [Accept] at h
    cases hA : AcceptChildren fmt children g with
    | none => simp [hA] at h
    | some d =>
      simp only [hA] at h
      match d with
      | .thrown ex a => cases h
      | .returned a =>
        have ha := AcceptChildren_kinds fmt children g a hA
        simp only [Option.some.injEq] at h
        rw [VisitLogicalOrder_kinds description a g1 h, ha,
          LogicalOperator.counterparts, List.append_assoc]
  | .LogicalProjection children select_list =>
    rw [Accept] at h
    cases hA : AcceptChildren fmt children g with
    | none => simp [hA] at h
    | some d =>
      simp only [hA] at h
      match d with
      | .thrown ex a => cases h
      | .returned a =>
        have ha := AcceptChildren_kinds fmt children g a hA
        obtain ⟨g2, planned, hv, hp, -⟩ := VisitExpressions_returns fmt select_list a
        simp only [hv, Option.some.injEq] at h
        rw [VisitLogicalProjection_kinds planned g2 g1 h, hp, ha,
          LogicalOperator.counterparts, List.append_assoc]
  | .LogicalInsert children table value_list =>
    rw [Accept] at h
    cases hA : AcceptChildren fmt children g with
    | none => simp [hA] at h
    | some d =>
      simp only [hA] at h
      match d with
      | .thrown ex a => cases h
      | .returned a =>
        have ha := AcceptChildren_kinds fmt children g a hA
        obtain ⟨g2, planned, hv, hp, -⟩ := VisitExpressions_returns fmt value_list a
        simp only [hv, Option.some.injEq] at h
        rw [VisitLogicalInsert_kinds table planned g2 g1 h, hp, ha,
          LogicalOperator.counterparts, List.append_assoc]
  | .LogicalCopy children table file_path is_from delimiter quote escape =>
    rw [Accept] at h
    cases hA : AcceptChildren fmt children g with
    | none => simp [hA] at h
    | some d =>
      simp only [hA] at h
      match d with
      | .thrown ex a => cases h
      | .returned a =>
        have ha := AcceptChildren_kinds fmt children g a hA
        simp only [Option.some.injEq] at h
        rw [VisitLogicalCopy_kinds table file_path is_from delimiter quote escape a g1 h,
          ha, LogicalOperator.counterparts, List.append_assoc]

theorem AcceptChildren_kinds (fmt : String → String) (children : List LogicalOperator)
    (g g1 : PhysicalPlanGenerator)
    (h : AcceptChildren fmt children g = some (.returned g1)) :
    planKinds g1.plan = planKinds g.plan ++ counterpartsOfChildren children := by
  match children with
  | [] =>
    rw [AcceptChildren] at h
    cases h
    simp [counterpartsOfChildren]
  | child :: rest =>
    rw [AcceptChildren] at h
    cases hA : Accept fmt child g with
    | none => simp [hA] at h
    | some d =>
      simp only [hA] at h
      match d with
      | .thrown ex a => cases h
      | .returned a =>
        rw [AcceptChildren_kinds fmt rest a g1 h, Accept_kinds fmt child g a hA,
          counterpartsOfChildren, List.append_assoc]
end

/-! ## Supporting facts for the claims on scans and on linearisation -/

/-- A Get bound to a real table that is reached with a plan in the slot raises the scan
message; the bind context has been indexed by then. -/
theorem VisitLogicalGet_after_plan (table : TableCatalogEntry) (alias_ : String)
    (g : PhysicalPlanGenerator) (p : PhysicalOperator) (context : BindContext)
    (hp : g.plan = some p) (hc : g.context = some context) :
    VisitLogicalGet (some table) alias_ g =
      some (.thrown (.duckdb (.of "Scan has to be the first node of a plan!"))
        ⟨some p, some (context.touch alias_), g.success, g.message⟩) := by
  simp [VisitLogicalGet, hp, hc]

/-- Whatever `CreatePlan` leaves in the plan slot of a fresh generator holds at most one
table scan (plans held by expressions apart). -/
theorem CreatePlan_one_scan (fmt : String → String) (logical : LogicalOperator)
    (context : BindContext) :
    ∃ b g1, CreatePlan fmt .fresh logical context = some (b, g1) ∧
      ((planNodes g1.plan).filter (fun n => decide (n.kind = .scan))).length ≤ 1 := by
  obtain ⟨b, g1, h, -, -⟩ := CreatePlan_returns fmt .fresh logical context
  refine ⟨b, g1, h, ?_⟩
  have hb := CreatePlan_built fmt .fresh logical context b g1 trivial h
  cases hp : g1.plan with
  | none => simp [planNodes]
  | some p =>
    rw [hp] at hb
    exact (Built.shape p hb).2.2.2

/-- Linearisation where the walk returns: the plan is a chain, and its nodes from the
deepest one up to the root are the counterparts of the nodes of the logical tree in
post-order, dummy Gets left out; `CreatePlan` returns true. -/
theorem CreatePlan_linearisation (fmt : String → String) (logical : LogicalOperator)
    (context : BindContext) (g1 : PhysicalPlanGenerator) (p : PhysicalOperator)
    (h : Accept fmt logical ⟨none, some context, false, ""⟩ = some (.returned g1))
    (hp : g1.plan = some p) :
    CreatePlan fmt .fresh logical context =
      some (true, ⟨some p, g1.context, true, g1.message⟩) ∧
    p.nodes.map (fun n => some n.kind) = logical.counterparts ∧
    p.nodes.all (fun n => decide (n.arity ≤ 1)) = true ∧
    p.nodes.length = logical.counterparts.length := by
  have hk := Accept_kinds fmt logical _ g1 h
  simp only [planKinds, planNodes, hp, List.map_nil, List.nil_append] at hk
  have hb := Accept_built fmt logical ⟨none, some context, false, ""⟩ (.returned g1)
    trivial h
  simp only [Completion.state, hp] at hb
  refine ⟨?_, hk, (Built.shape p hb).2.2.1, ?_⟩
  · unfold CreatePlan CreatePlanWith
    simp [PhysicalPlanGenerator.fresh, h, hp]
  · rw [← hk, List.length_map]

/-! ## The claims, continued -/

/-- C11 (counterexample): a Distinct over a real-table Get. `CreatePlan` returns false and
the scan that was lowered before the failure is still in the plan slot. -/
theorem CreatePlan_keeps_partial_plan :
    CreatePlan id .fresh (.LogicalDistinct [.LogicalGet [] (some ⟨[("a", 0)], 7⟩) "t"])
        ⟨[("t", ["a"])]⟩ =
      some (false,
        ⟨some (.PhysicalTableScan [] 7 [0]), some ⟨[("t", ["a"])]⟩, false,
          "distinct clause"⟩) :=
  rfl

/-- C11 (amended): `CreatePlan` never empties the plan slot: on every generator, whatever
flag it returns, the slot afterwards holds what the walk of the tree left there, from the
state `CreatePlan` sets up (the plan slot as found, the new context, the flag false). -/
theorem CreatePlan_plan_slot (fmt : String → String) (g : PhysicalPlanGenerator)
    (logical : LogicalOperator) (context : BindContext) :
    ∃ c b g1, Accept fmt logical ⟨g.plan, some context, false, g.message⟩ = some c ∧
      CreatePlan fmt g logical context = some (b, g1) ∧ g1.plan = c.state.plan := by
  obtain ⟨c, hc, -⟩ := Accept_completes fmt logical
    ⟨g.plan, some context, false, g.message⟩ rfl
  obtain ⟨b, g1, h1, -, -⟩ := CreatePlan_returns fmt g logical context
  refine ⟨c, b, g1, hc, h1, ?_⟩
  unfold CreatePlan CreatePlanWith at h1
  simp only [hc] at h1
  match c, h1 with
  | .returned g2, h1 =>
    simp only at h1
    split at h1 <;> cases h1 <;> simp_all [Completion.state]
  | .thrown (.duckdb ex) g2, h1 => cases h1; rfl
  | .thrown .foreign g2, h1 => cases h1; rfl

/-- C12 (counterexample): a single real-table Get planned twice on one generator. The
first `CreatePlan` returns true; the second finds the scan of the first in the plan slot
and returns false with the scan message. -/
theorem CreatePlan_on_reused_generator :
    CreatePlan id .fresh (.LogicalGet [] (some ⟨[("a", 0)], 7⟩) "t") ⟨[("t", ["a"])]⟩ =
      some (true,
        ⟨some (.PhysicalTableScan [] 7 [0]), some ⟨[("t", ["a"])]⟩, true, ""⟩) ∧
    CreatePlan id ⟨some (.PhysicalTableScan [] 7 [0]), some ⟨[("t", ["a"])]⟩, true, ""⟩
        (.LogicalGet [] (some ⟨[("a", 0)], 7⟩) "t") ⟨[("t", ["a"])]⟩ =
      some (false,
        ⟨some (.PhysicalTableScan [] 7 [0]), some ⟨[("t", ["a"])]⟩, false,
          "Scan has to be the first node of a plan!"⟩) :=
  ⟨rfl, rfl⟩

/-- C12 (amended): `CreatePlan` overwrites the bind context and the success flag and leaves
the plan slot and the message as they are. For two generators with the same plan slot it
returns the same flag and leaves the same plan, whatever context, flag and message they
held; when they hold the same message as well, the whole result is the same. -/
theorem CreatePlan_entry_state (fmt : String → String) (g1 g2 : PhysicalPlanGenerator)
    (logical : LogicalOperator) (context : BindContext) (hp : g1.plan = g2.plan) :
    (∃ b r1 r2, CreatePlan fmt g1 logical context = some (b, r1) ∧
      CreatePlan fmt g2 logical context = some (b, r2) ∧ r1.plan = r2.plan) ∧
    (g1.message = g2.message →
      CreatePlan fmt g1 logical context = CreatePlan fmt g2 logical context) := by
  constructor
  · obtain ⟨b, r1, h1, -, -⟩ := CreatePlan_returns fmt g1 logical context
    obtain ⟨r2, h2, hs, -, -⟩ := CreatePlan_sim fmt g1 g2 logical context hp b r1 h1
    exact ⟨b, r1, r2, h1, h2, hs⟩
  · intro hm
    unfold CreatePlan CreatePlanWith
    simp only [hp, hm]

/-- C12 (amended) at a fresh generator and a generator that holds another context and the
flag true. -/
theorem CreatePlan_entry_state_witness :
    (∃ b r1 r2,
      CreatePlan id .fresh (.LogicalProjection [] []) ⟨[]⟩ = some (b, r1) ∧
      CreatePlan id ⟨none, some ⟨[("t", [])]⟩, true, ""⟩ (.LogicalProjection [] [])
          ⟨[]⟩ = some (b, r2) ∧ r1.plan = r2.plan) ∧
    (PhysicalPlanGenerator.fresh.message =
        (⟨none, some ⟨[("t", [])]⟩, true, ""⟩ : PhysicalPlanGenerator).message →
      CreatePlan id .fresh (.LogicalProjection [] []) ⟨[]⟩ =
        CreatePlan id ⟨none, some ⟨[("t", [])]⟩, true, ""⟩ (.LogicalProjection [] [])
          ⟨[]⟩) :=
  CreatePlan_entry_state id .fresh ⟨none, some ⟨[("t", [])]⟩, true, ""⟩
    (.LogicalProjection [] []) ⟨[]⟩ rfl

/-- C17: when the walk of the tree returns without raising and leaves the plan slot empty,
`CreatePlan` on a fresh generator returns false with the message
"Unknown error in physical plan generation". -/
theorem CreatePlan_without_plan (fmt : String → String) (logical : LogicalOperator)
    (context : BindContext) (g1 : PhysicalPlanGenerator)
    (h : Accept fmt logical ⟨none, some context, false, ""⟩ = some (.returned g1))
    (hp : g1.plan = none) :
    CreatePlan fmt .fresh logical context =
      some (false,
        ⟨none, some context, false, "Unknown error in physical plan generation"⟩) := by
  have hg := Accept_returned_empty fmt logical _ g1 h hp
  subst hg
  unfold CreatePlan CreatePlanWith
  simp only [PhysicalPlanGenerator.fresh, h]
  rfl

/-- C17 at a tree that is one dummy Get. -/
theorem CreatePlan_without_plan_witness :
    CreatePlan id .fresh (.LogicalGet [] none "t") ⟨[]⟩ =
      some (false,
        ⟨none, some ⟨[]⟩, false, "Unknown error in physical plan generation"⟩) :=
  CreatePlan_without_plan id (.LogicalGet [] none "t") ⟨[]⟩ ⟨none, some ⟨[]⟩, false, ""⟩
    rfl rfl

/-- C20: a Get bound to a real table whose alias has no entry in the bind context does not
fail: `CreatePlan` on a fresh generator returns true with a table scan over an empty list of
column ids (the alias has been entered with no columns); and a column name that the name
map of the table does not hold is translated to column id 0. -/
theorem CreatePlan_get_unknown_names (fmt : String → String) (table : TableCatalogEntry)
    (alias_ : String) (context : BindContext) :
    (find alias_ context.bound_columns = none →
      CreatePlan fmt .fresh (.LogicalGet [] (some table) alias_) context =
        some (true,
          ⟨some (.PhysicalTableScan [] table.storage []),
            some ⟨context.bound_columns ++ [(alias_, [])]⟩, true, ""⟩)) ∧
    (∀ column, find column table.name_map = none → table.column_id column = 0) ∧
    (∀ column, find column table.name_map = none →
      CreatePlan fmt .fresh (.LogicalGet [] (some table) alias_) ⟨[(alias_, [column])]⟩ =
        some (true,
          ⟨some (.PhysicalTableScan [] table.storage [0]), some ⟨[(alias_, [column])]⟩,
            true, ""⟩)) := by
  refine ⟨fun h => ?_, fun column h => ?_, fun column h => ?_⟩
  · simp [CreatePlan, CreatePlanWith, Accept, AcceptChildren, VisitLogicalGet,
      PhysicalPlanGenerator.fresh, BindContext.columns, BindContext.touch, h]
  · simp [TableCatalogEntry.column_id, h]
  · simp [CreatePlan, CreatePlanWith, Accept, AcceptChildren, VisitLogicalGet,
      PhysicalPlanGenerator.fresh, BindContext.columns, BindContext.touch, find,
      TableCatalogEntry.column_id, h]

/-- C20 at a table with the one column `a` and a context without the alias `t`. -/
theorem CreatePlan_get_unknown_names_witness :
    (find "t" (⟨[("u", ["a"])]⟩ : BindContext).bound_columns = none →
      CreatePlan id .fresh (.LogicalGet [] (some ⟨[("a", 3)], 7⟩) "t") ⟨[("u", ["a"])]⟩ =
        some (true,
          ⟨some (.PhysicalTableScan [] 7 []),
            some ⟨[("u", ["a"])] ++ [("t", [])]⟩, true, ""⟩)) ∧
    (∀ column, find column (⟨[("a", 3)], 7⟩ : TableCatalogEntry).name_map = none →
      (⟨[("a", 3)], 7⟩ : TableCatalogEntry).column_id column = 0) ∧
    (∀ column, find column (⟨[("a", 3)], 7⟩ : TableCatalogEntry).name_map = none →
      CreatePlan id .fresh (.LogicalGet [] (some ⟨[("a", 3)], 7⟩) "t")
          ⟨[("t", [column])]⟩ =
        some (true,
          ⟨some (.PhysicalTableScan [] 7 [0]), some ⟨[("t", [column])]⟩, true, ""⟩)) :=
  CreatePlan_get_unknown_names id ⟨[("a", 3)], 7⟩ "t" ⟨[("u", ["a"])]⟩

/-- C13: the Projection overload always returns: the plan becomes a projection node over
the select list, with no children when the slot was empty and with the prior plan as its
only child otherwise. So `CreatePlan` on a fresh generator returns true for a Projection
whose children return; over a Get of a real table the plan is the projection over the scan
of the table with the translated column ids, `[0]` for the context `t: [a]` and the name
map `a: 0`. -/
theorem CreatePlan_projection (fmt : String → String) (children : List LogicalOperator)
    (select_list : List Expression) (context : BindContext) (table : TableCatalogEntry)
    (alias_ : String) :
    (∀ (planned : List PlannedExpression) (g : PhysicalPlanGenerator),
      VisitLogicalProjection planned g =
        .returned
          ⟨some (.PhysicalProjection g.plan.toList planned), g.context, g.success,
            g.message⟩) ∧
    (∃ c, AcceptChildren fmt children ⟨none, some context, false, ""⟩ = some c ∧
      match c with
      | .returned g1 =>
        ∃ g2 planned, VisitExpressions fmt select_list g1 = some (g2, planned) ∧
          CreatePlan fmt .fresh (.LogicalProjection children select_list) context =
            some (true,
              ⟨some (.PhysicalProjection g1.plan.toList planned), g2.context, true,
                g2.message⟩)
      | .thrown _ _ => True) ∧
    (∃ g2 planned,
      VisitExpressions fmt select_list
          ⟨some (.PhysicalTableScan [] table.storage
              ((context.columns alias_).map table.column_id)),
            some (context.touch alias_), false, ""⟩ = some (g2, planned) ∧
      CreatePlan fmt .fresh
          (.LogicalProjection [.LogicalGet [] (some table) alias_] select_list) context =
        some (true,
          ⟨some (.PhysicalProjection
              [.PhysicalTableScan [] table.storage
                ((context.columns alias_).map table.column_id)] planned),
            g2.context, true, g2.message⟩)) ∧
    CreatePlan fmt .fresh
        (.LogicalProjection [.LogicalGet [] (some ⟨[("a", 0)], 7⟩) "t"] [.other "t.a" []])
        ⟨[("t", ["a"])]⟩ =
      some (true,
        ⟨some (.PhysicalProjection [.PhysicalTableScan [] 7 [0]] [.other "t.a" []]),
          some ⟨[("t", ["a"])]⟩, true, ""⟩) := by
  refine ⟨?_, ?_, ?_, rfl⟩
  · intro planned g
    unfold VisitLogicalProjection
    cases hp : g.plan <;> rfl
  · obtain ⟨c, hc, -⟩ := AcceptChildren_completes fmt children
      ⟨none, some context, false, ""⟩ rfl
    refine ⟨c, hc, ?_⟩
    match c, hc with
    | .thrown _ _, _ => trivial
    | .returned g1, hc =>
      obtain ⟨g2, planned, hv, hp2, -⟩ := VisitExpressions_returns fmt select_list g1
      refine ⟨g2, planned, hv, ?_⟩
      cases hp : g1.plan with
      | none =>
        have hp3 : g2.plan = none := hp2.trans hp
        simp [CreatePlan, CreatePlanWith, Accept, VisitLogicalProjection,
          PhysicalPlanGenerator.fresh, hc, hv, hp3]
      | some p =>
        have hp3 : g2.plan = some p := hp2.trans hp
        simp [CreatePlan, CreatePlanWith, Accept, VisitLogicalProjection,
          PhysicalPlanGenerator.fresh, hc, hv, hp3]
  · obtain ⟨g2, planned, hv, hp2, -⟩ := VisitExpressions_returns fmt select_list
      ⟨some (.PhysicalTableScan [] table.storage
          ((context.columns alias_).map table.column_id)),
        some (context.touch alias_), false, ""⟩
    refine ⟨g2, planned, hv, ?_⟩
    have hp3 : g2.plan = some (.PhysicalTableScan [] table.storage
        ((context.columns alias_).map table.column_id)) := hp2
    simp [CreatePlan, CreatePlanWith, Accept, AcceptChildren, VisitLogicalGet,
      VisitLogicalProjection, PhysicalPlanGenerator.fresh, hv, hp3]

/-- C14 (failing input): a Projection over an Insert. `CreatePlan` returns true and the
insert node is the child of the projection node; likewise a Limit over a Copy returns true
with the copy node below the limit node. The guard that raises "Insert should be root node"
only tests that nothing was lowered before the node: it refuses an Insert that is the root
of the logical tree over a real-table Get and lets a node above an Insert pass. -/
theorem CreatePlan_insert_below_projection :
    CreatePlan id .fresh
        (.LogicalProjection [.LogicalInsert [] (some ⟨[("a", 0)], 7⟩) [.other "1" []]] [])
        ⟨[]⟩ =
      some (true,
        ⟨some (.PhysicalProjection
            [.PhysicalInsert [] (some ⟨[("a", 0)], 7⟩) [.other "1" []]] []),
          some ⟨[]⟩, true, ""⟩) ∧
    CreatePlan id .fresh
        (.LogicalLimit [.LogicalCopy [] (some ⟨[("a", 0)], 7⟩) "out.csv" false ',' '"' '"']
          10 0)
        ⟨[]⟩ =
      some (true,
        ⟨some (.PhysicalLimit
            [.PhysicalCopy [] (some ⟨[("a", 0)], 7⟩) "out.csv" false ',' '"' '"'] 10 0),
          some ⟨[]⟩, true, ""⟩) ∧
    CreatePlan id .fresh
        (.LogicalInsert [.LogicalGet [] (some ⟨[("a", 0)], 7⟩) "t"] (some ⟨[("a", 0)], 7⟩)
          [.other "1" []])
        ⟨[("t", ["a"])]⟩ =
      some (false,
        ⟨some (.PhysicalTableScan [] 7 [0]), some ⟨[("t", ["a"])]⟩, false,
          "Insert should be root node"⟩) :=
  ⟨rfl, rfl, rfl⟩

/-- Insert and copy nodes are leaves: in whatever `CreatePlan` leaves in the plan slot of a
fresh generator, every insert node and every copy node has no children; and for a logical
tree that is one Insert or one Copy without children, the plan is that node alone. -/
theorem CreatePlan_insert_copy_leaves (fmt : String → String) (logical : LogicalOperator)
    (context : BindContext) :
    (∃ b g1, CreatePlan fmt .fresh logical context = some (b, g1) ∧
      (planNodes g1.plan).all PhysicalNode.leafIfInsertOrCopy = true) ∧
    (∀ table value_list, ∃ g2 planned,
      VisitExpressions fmt value_list ⟨none, some context, false, ""⟩ = some (g2, planned) ∧
      CreatePlan fmt .fresh (.LogicalInsert [] table value_list) context =
        some (true,
          ⟨some (.PhysicalInsert [] table planned), g2.context, true, g2.message⟩)) ∧
    (∀ table file_path is_from delimiter quote escape,
      CreatePlan fmt .fresh
          (.LogicalCopy [] table file_path is_from delimiter quote escape) context =
        some (true,
          ⟨some (.PhysicalCopy [] table file_path is_from delimiter quote escape),
            some context, true, ""⟩)) := by
  refine ⟨?_, ?_, fun _ _ _ _ _ _ => rfl⟩
  · obtain ⟨b, g1, h, -, -⟩ := CreatePlan_returns fmt .fresh logical context
    refine ⟨b, g1, h, ?_⟩
    have hb := CreatePlan_built fmt .fresh logical context b g1 trivial h
    cases hp : g1.plan with
    | none => simp [planNodes]
    | some p =>
      rw [hp] at hb
      exact (Built.shape p hb).2.1
  · intro table value_list
    obtain ⟨g2, planned, hv, hp2, -⟩ := VisitExpressions_returns fmt value_list
      ⟨none, some context, false, ""⟩
    refine ⟨g2, planned, hv, ?_⟩
    have hp3 : g2.plan = none := hp2
    simp [CreatePlan, CreatePlanWith, Accept, AcceptChildren, VisitLogicalInsert,
      PhysicalPlanGenerator.fresh, hv, hp3]

/-- C15: when the children of a Filter, Order, Limit or Aggregate return with a plan `p` in
the slot, the node does not fail: the slot then holds a new node of the matching class that
carries the payload of the logical node (expression list; sort description; limit and
offset; select list and grouping list, as the walk left them) and has `[p]` as its list of
children. -/
theorem Accept_wraps_prior_plan (fmt : String → String) (children : List LogicalOperator)
    (g g1 : PhysicalPlanGenerator) (p : PhysicalOperator)
    (h : AcceptChildren fmt children g = some (.returned g1)) (hp : g1.plan = some p) :
    (∀ expressions, ∃ g2 planned,
      VisitExpressions fmt expressions g1 = some (g2, planned) ∧
      Accept fmt (.LogicalFilter children expressions) g =
        some (.returned
          ⟨some (.PhysicalFilter [p] planned), g2.context, g2.success, g2.message⟩)) ∧
    (∀ description,
      Accept fmt (.LogicalOrder children description) g =
        some (.returned
          ⟨some (.PhysicalOrder [p] description), g1.context, g1.success, g1.message⟩)) ∧
    (∀ limit offset,
      Accept fmt (.LogicalLimit children limit offset) g =
        some (.returned
          ⟨some (.PhysicalLimit [p] limit offset), g1.context, g1.success, g1.message⟩)) ∧
    (∀ select_list groups, ∃ g2 planned g3 grouping,
      VisitExpressions fmt select_list g1 = some (g2, planned) ∧
      VisitExpressions fmt groups g2 = some (g3, grouping) ∧
      Accept fmt (.LogicalAggregate children select_list groups) g =
        some (.returned
          ⟨some (.PhysicalHashAggregate [p] planned grouping), g3.context, g3.success,
            g3.message⟩)) := by
  refine ⟨?_, ?_, ?_, ?_⟩
  · intro expressions
    obtain ⟨g2, planned, hv, hp2, -⟩ := VisitExpressions_returns fmt expressions g1
    refine ⟨g2, planned, hv, ?_⟩
    have hp3 : g2.plan = some p := hp2.trans hp
    simp [Accept, VisitLogicalFilter, h, hv, hp3]
  · intro description
    simp [Accept, VisitLogicalOrder, h, hp]
  · intro limit offset
    simp [Accept, VisitLogicalLimit, h, hp]
  · intro select_list groups
    obtain ⟨g2, planned, hv, hp2, -⟩ := VisitExpressions_returns fmt select_list g1
    obtain ⟨g3, grouping, hw, hp3, -⟩ := VisitExpressions_returns fmt groups g2
    refine ⟨g2, planned, g3, grouping, hv, hw, ?_⟩
    have hp4 : g3.plan = some p := (hp3.trans hp2).trans hp
    by_cases hl : grouping.length = 0
    · have hn : grouping = [] := List.length_eq_zero.mp hl
      subst hn
      simp [Accept, VisitLogicalAggregate, h, hv, hw, hp4]
    · simp [Accept, VisitLogicalAggregate, h, hv, hw, hp4, hl]

/-- C15 at nodes over one real-table Get. -/
theorem Accept_wraps_prior_plan_witness :
    (∀ expressions, ∃ g2 planned,
      VisitExpressions id expressions
          ⟨some (.PhysicalTableScan [] 7 [0]), some ⟨[("t", ["a"])]⟩, false, ""⟩ =
        some (g2, planned) ∧
      Accept id (.LogicalFilter [.LogicalGet [] (some ⟨[("a", 0)], 7⟩) "t"] expressions)
          ⟨none, some ⟨[("t", ["a"])]⟩, false, ""⟩ =
        some (.returned
          ⟨some (.PhysicalFilter [.PhysicalTableScan [] 7 [0]] planned), g2.context,
            g2.success, g2.message⟩)) ∧
    (∀ description,
      Accept id (.LogicalOrder [.LogicalGet [] (some ⟨[("a", 0)], 7⟩) "t"] description)
          ⟨none, some ⟨[("t", ["a"])]⟩, false, ""⟩ =
        some (.returned
          ⟨some (.PhysicalOrder [.PhysicalTableScan [] 7 [0]] description),
            some ⟨[("t", ["a"])]⟩, false, ""⟩)) ∧
    (∀ limit offset,
      Accept id (.LogicalLimit [.LogicalGet [] (some ⟨[("a", 0)], 7⟩) "t"] limit offset)
          ⟨none, some ⟨[("t", ["a"])]⟩, false, ""⟩ =
        some (.returned
          ⟨some (.PhysicalLimit [.PhysicalTableScan [] 7 [0]] limit offset),
            some ⟨[("t", ["a"])]⟩, false, ""⟩)) ∧
    (∀ select_list groups, ∃ g2 planned g3 grouping,
      VisitExpressions id select_list
          ⟨some (.PhysicalTableScan [] 7 [0]), some ⟨[("t", ["a"])]⟩, false, ""⟩ =
        some (g2, planned) ∧
      VisitExpressions id groups g2 = some (g3, grouping) ∧
      Accept id
          (.LogicalAggregate [.LogicalGet [] (some ⟨[("a", 0)], 7⟩) "t"] select_list groups)
          ⟨none, some ⟨[("t", ["a"])]⟩, false, ""⟩ =
        some (.returned
          ⟨some (.PhysicalHashAggregate [.PhysicalTableScan [] 7 [0]] planned grouping),
            g3.context, g3.success, g3.message⟩)) :=
  Accept_wraps_prior_plan id [.LogicalGet [] (some ⟨[("a", 0)], 7⟩) "t"]
    ⟨none, some ⟨[("t", ["a"])]⟩, false, ""⟩
    ⟨some (.PhysicalTableScan [] 7 [0]), some ⟨[("t", ["a"])]⟩, false, ""⟩
    (.PhysicalTableScan [] 7 [0]) rfl rfl

/-- C16: the arity rule holds for every node of the tree that `CreatePlan` leaves in the
plan slot of a fresh generator, and of the plan that `Visit(SubqueryExpression &)` stores
into a subquery expression: a scan has no children; a filter, an order and a limit have
exactly one; a hash aggregate with grouping expressions has exactly one; a projection and a
hash aggregate without grouping expressions have none or one. -/
theorem CreatePlan_arity (fmt : String → String) (logical : LogicalOperator)
    (context : BindContext) :
    (∃ b g1, CreatePlan fmt .fresh logical context = some (b, g1) ∧
      (planNodes g1.plan).all PhysicalNode.arityOk = true) ∧
    (∀ g : PhysicalPlanGenerator, ∃ g1 plan,
      VisitSubqueryExpression fmt logical context g = some (g1, .SubqueryExpression plan) ∧
      (planNodes plan).all PhysicalNode.arityOk = true) := by
  have key : ∀ g : PhysicalPlanGenerator, g.plan = none →
      ∃ b g1, CreatePlan fmt g logical context = some (b, g1) ∧
        (planNodes g1.plan).all PhysicalNode.arityOk = true := by
    intro g hg
    obtain ⟨b, g1, h, -, -⟩ := CreatePlan_returns fmt g logical context
    refine ⟨b, g1, h, ?_⟩
    have hb := CreatePlan_built fmt g logical context b g1 (by rw [hg]; trivial) h
    cases hp : g1.plan with
    | none => simp [planNodes]
    | some p =>
      rw [hp] at hb
      exact (Built.shape p hb).1
  refine ⟨key _ rfl, fun g => ?_⟩
  obtain ⟨b, g1, h, ha⟩ := key ⟨none, none, g.success, g.message⟩ rfl
  refine ⟨⟨g.plan, g.context, g1.success, g1.message⟩, g1.plan, ?_, ha⟩
  unfold VisitSubqueryExpression VisitSubqueryExpressionWith
  simp only [h]

/-- C18 (failing input): a Filter over a Projection, whose select list holds a subquery
that plans successfully, and a real-table Get. The Get is reached with the projection in
the plan slot and raises the scan message, yet `CreatePlan` returns true. -/
theorem CreatePlan_second_scan_returns_true :
    CreatePlan id .fresh
        (.LogicalFilter
          [.LogicalProjection [] [.SubqueryExpression (.LogicalProjection [] []) ⟨[]⟩],
            .LogicalGet [] (some ⟨[("a", 0)], 7⟩) "t"]
          [])
        ⟨[("t", ["a"])]⟩ =
      some (true,
        ⟨some (.PhysicalProjection []
            [.SubqueryExpression (some (.PhysicalProjection [] []))]),
          some ⟨[("t", ["a"])]⟩, true, "Scan has to be the first node of a plan!"⟩) :=
  rfl

/-- C19 (failing input): a Copy over a Projection whose select list holds a subquery that
plans successfully. The Copy raises, yet `CreatePlan` returns true; the plan is the
projection alone, while the linearisation of the logical tree is projection, copy. -/
theorem CreatePlan_true_with_partial_chain :
    CreatePlan id .fresh
        (.LogicalCopy
          [.LogicalProjection [] [.SubqueryExpression (.LogicalProjection [] []) ⟨[]⟩]]
          none "out.csv" false ',' '"' '"')
        ⟨[]⟩ =
      some (true,
        ⟨some (.PhysicalProjection []
            [.SubqueryExpression (some (.PhysicalProjection [] []))]),
          some ⟨[]⟩, true, "Copy should be root node"⟩) ∧
    planKinds (some (.PhysicalProjection []
        [.SubqueryExpression (some (.PhysicalProjection [] []))])) = [some .projection] ∧
    (LogicalOperator.LogicalCopy
        [.LogicalProjection [] [.SubqueryExpression (.LogicalProjection [] []) ⟨[]⟩]]
        none "out.csv" false ',' '"' '"').counterparts =
      [some .projection, some .copy] :=
  ⟨rfl, rfl, rfl⟩

end duckdb
